import Mathlib

/-!
Verification of the Markdown→OpenAPI conversion engine of `md2openapi.py`.

Python strings are modelled as `List Char`; Python dicts that the program
builds by insertion/overwrite are modelled as association lists with an
insert-or-update operation that preserves the position of an existing key
(as CPython dicts do).  The regular expressions used by the source are
implemented as character scanners that follow the semantics of the concrete
patterns appearing in the source (greedy/lazy behaviour is resolved for the
character classes involved, which are pairwise disjoint at every decision
point used by the program).  Scanning loops carry an explicit fuel argument
and are wrapped with their input length so that they are executable; the
`\w`/`\s` character classes of Python `re` are modelled on the ASCII range
plus the CJK unified-ideograph range used by the documents.
-/

set_option maxRecDepth 10000

namespace Md2Openapi

/-- Convert a Lean string literal to the `List Char` model of a Python `str`. -/
def cs (s : String) : List Char := s.toList

/-- Python's `\s` class (ASCII part), as used by `re` and `str.strip`. -/
def isWs (c : Char) : Bool :=
  c = ' ' || c = '\t' || c = '\n' || c = '\r' || c = '\x0b' || c = '\x0c'

/-- Python's `\w` class: ASCII alphanumerics, underscore, and the CJK
unified-ideograph range used in the section headings of the documents. -/
def isWordChar (c : Char) : Bool :=
  c.isAlphanum || c = '_' || (0x4E00 ≤ c.toNat && c.toNat ≤ 0x9FFF)

/-- `str.lower()` on the ASCII range (all type tokens in the documents are ASCII). -/
def lowerL (l : List Char) : List Char := l.map Char.toLower

/-- `str.strip()` with no argument: strip whitespace from both ends. -/
def pyStrip (l : List Char) : List Char :=
  ((l.dropWhile isWs).reverse.dropWhile isWs).reverse

/-- `str.rstrip(':')`: strip all trailing colons. -/
def rstripColon (l : List Char) : List Char :=
  (l.reverse.dropWhile (· = ':')).reverse

/-- `str.strip('/')`: strip all leading and trailing slashes. -/
def stripSlash (l : List Char) : List Char :=
  ((l.dropWhile (· = '/')).reverse.dropWhile (· = '/')).reverse

/-- Python `str.split(sep)` for a one-character separator:
`"".split(sep) = ['']`, empty pieces are kept. -/
def pySplit (sep : Char) : List Char → List (List Char)
  | [] => [[]]
  | c :: rest =>
    if c = sep then [] :: pySplit sep rest
    else
      match pySplit sep rest with
      | g :: gs => (c :: g) :: gs
      | [] => [[c]]

/-- `sep.join(parts)` for a one-character separator. -/
def pyJoin (sep : Char) : List (List Char) → List Char
  | [] => []
  | [p] => p
  | p :: rest => p ++ sep :: pyJoin sep rest

/-- First-match lookup in an association list (Python dict literals below
have pairwise distinct keys, where this coincides with dict lookup). -/
def alGet {α : Type} (k : List Char) : List (List Char × α) → Option α
  | [] => none
  | kv :: rest => if kv.1 = k then some kv.2 else alGet k rest

/-- Dict insert-or-update: an existing key keeps its position and gets the
new value, a new key is appended — CPython dict assignment semantics. -/
def alUpsert {α : Type} (k : List Char) (v : α) : List (List Char × α) → List (List Char × α)
  | [] => [(k, v)]
  | kv :: rest => if kv.1 = k then (k, v) :: rest else kv :: alUpsert k v rest

/-- `dict(zip(headers, cols)).get(k, d)`: with duplicate keys the *last*
pair wins, which is the behaviour of `dict(zip(...))`. -/
def dictZipGet (headers cols : List (List Char)) (k dflt : List Char) : List Char :=
  match (List.zip headers cols).reverse.find? (fun kv => kv.1 = k) with
  | some kv => kv.2
  | none => dflt

/-- Drop an expected literal from the front of the input, or fail. -/
def dropLit : List Char → List Char → Option (List Char)
  | [], rest => some rest
  | l :: ls, c :: rest => if c = l then dropLit ls rest else none
  | _ :: _, [] => none

/-- An OpenAPI schema fragment as the program builds it: the dict keys
`type`, `format`, `description`, `enum`, `x-enum-descriptions`,
`properties`, `required`, `items`; `none` models an absent key. -/
inductive Schema : Type where
  | mk (type : List Char) (format descr : Option (List Char))
       (enum enumDescs : Option (List (List Char)))
       (props : Option (List (List Char × Schema)))
       (req : Option (List (List Char)))
       (items : Option Schema) : Schema

def Schema.type : Schema → List Char
  | .mk t _ _ _ _ _ _ _ => t

def Schema.format : Schema → Option (List Char)
  | .mk _ f _ _ _ _ _ _ => f

def Schema.descr : Schema → Option (List Char)
  | .mk _ _ d _ _ _ _ _ => d

def Schema.enum : Schema → Option (List (List Char))
  | .mk _ _ _ e _ _ _ _ => e

def Schema.enumDescs : Schema → Option (List (List Char))
  | .mk _ _ _ _ e _ _ _ => e

def Schema.props : Schema → Option (List (List Char × Schema))
  | .mk _ _ _ _ _ p _ _ => p

def Schema.req : Schema → Option (List (List Char))
  | .mk _ _ _ _ _ _ r _ => r

def Schema.items : Schema → Option Schema
  | .mk _ _ _ _ _ _ _ i => i

/-- `{'type': t}` with every other key absent. -/
def Schema.ofType (t : List Char) : Schema :=
  .mk t none none none none none none none

/-- `schema['items'] = child` on an existing schema dict. -/
def Schema.setItems : Schema → Schema → Schema
  | .mk t f d e ed p r _, child => .mk t f d e ed p r (some child)

/-- The `type_mapping` table of `determine_schema_type`. -/
def type_mapping : List (List Char × List Char) :=
  [(cs "string", cs "string"), (cs "str", cs "string"),
   (cs "int", cs "integer"), (cs "integer", cs "integer"),
   (cs "float", cs "number"), (cs "double", cs "number"), (cs "number", cs "number"),
   (cs "bool", cs "boolean"), (cs "boolean", cs "boolean"),
   (cs "array", cs "array"), (cs "object", cs "object"),
   (cs "date", cs "string"), (cs "datetime", cs "string"), (cs "time", cs "string"),
   (cs "user", cs "object")]

/-- Scan for the closing parenthesis of `\((.+?)\)`: collect characters
until the first `)`, failing on a newline (`.` does not match `\n`) or
at end of input. -/
def scanClose : List Char → Option (List Char)
  | [] => none
  | c :: rest =>
    if c = ')' then some []
    else if c = '\n' then none
    else (scanClose rest).map (c :: ·)

/-- One attempt of `re.search(r'\((.+?)\)', ...)` at the current position:
an opening parenthesis, a lazily-matched non-empty group without newlines,
and the first closing parenthesis thereafter. -/
def tryParenAt : List Char → Option (List Char)
  | [] => none
  | c :: rest =>
    if c = '(' then
      match rest with
      | [] => none
      | c1 :: rest2 =>
        if c1 = '\n' then none
        else (scanClose rest2).map (c1 :: ·)
    else none

def findParenGo : Nat → List Char → Option (List Char)
  | 0, _ => none
  | _ + 1, [] => none
  | f + 1, c :: rest =>
    match tryParenAt (c :: rest) with
    | some g => some g
    | none => findParenGo f rest

/-- `re.search(r'\((.+?)\)', l)`, returning the captured group of the
leftmost match. -/
def findParenGroup (l : List Char) : Option (List Char) :=
  findParenGo l.length l

/-- The enum extraction of `determine_schema_type`: from a parenthesized,
pipe-separated description, the `enum` and `x-enum-descriptions` values
(`none` when the key is not set). -/
def enumsFromDesc (param_desc : List Char) :
    Option (List (List Char)) × Option (List (List Char)) :=
  match findParenGroup param_desc with
  | some g =>
    let pieces := pySplit '|' g
    let vals := pieces.map (fun v => (pySplit ' ' v).headD [])
    if vals.length > 1 then
      let descs := pieces.map (fun v => pyStrip (pyJoin ' ' ((pySplit ' ' v).drop 1)))
      (some vals, if descs.any (· ≠ []) then some descs else none)
    else (none, none)
  | none => (none, none)

/-- `determine_schema_type(param_type, param_desc, param_name)`: type-token
mapping, the `desc`-field override, format tags, and enum extraction from a
parenthesized pipe-separated description. -/
def determine_schema_type (param_type param_desc param_name : List Char) : Schema :=
  let pt := lowerL param_type
  if param_name ≠ [] ∧ lowerL param_name = cs "desc" then
    Schema.mk (cs "string") none
      (some (if param_desc ≠ [] then param_desc else cs "任务描述"))
      none none none none none
  else
    let ty := match alGet pt type_mapping with | some t => t | none => cs "string"
    let fmt : Option (List Char) :=
      if pt = cs "date" then some (cs "date")
      else if pt = cs "datetime" then some (cs "date-time")
      else if pt = cs "time" then some (cs "time")
      else if pt = cs "email" then some (cs "email")
      else if pt = cs "uri" ∨ pt = cs "url" then some (cs "uri")
      else none
    let descr : Option (List Char) := if param_desc ≠ [] then some param_desc else none
    Schema.mk ty fmt descr (enumsFromDesc param_desc).1 (enumsFromDesc param_desc).2
      none none none

/-- `pat in s` on Python strings: substring containment. -/
def containsSub (pat : List Char) : List Char → Bool
  | [] => (dropLit pat ([] : List Char)).isSome
  | c :: rest => (dropLit pat (c :: rest)).isSome || containsSub pat rest

/-- One row of a parameter table: `名称`, `类型` (lowercased), `必填 == '是'`, `描述`. -/
structure Row where
  name : List Char
  type : List Char
  required : Bool
  descr : List Char

/-- One `\|[^\n]+\|\s*\n` table line starting at the current position:
a `|`, at least one character, a last `|` followed only by blanks before
the newline.  Returns the full line text and the input after the newline. -/
def matchTableLine : List Char → Option (List Char × List Char)
  | [] => none
  | c :: rest =>
    if c = '|' then
      let L := (c :: rest).takeWhile (· ≠ '\n')
      match (c :: rest).dropWhile (· ≠ '\n') with
      | _ :: rest2 =>
        let core := (L.reverse.dropWhile isWs).reverse
        if 3 ≤ core.length ∧ core.getLast? = some '|' then some (L, rest2) else none
      | [] => none
    else none

/-- The `(?:\s*\|[^\n]+\|\s*\n)*` row block: repeatedly skip blanks and
match one table line; stops (without consuming the peeked blanks) at the
first position that is not a table line. -/
def rowsGo : Nat → List Char → List (List Char) × List Char
  | 0, csl => ([], csl)
  | f + 1, csl =>
    match matchTableLine (csl.dropWhile isWs) with
    | some (L, rest) =>
      let p := rowsGo f rest
      (L :: p.1, p.2)
    | none => ([], csl)

def rowsLoop (csl : List Char) : List (List Char) × List Char :=
  rowsGo csl.length csl

/-- `\s*\n\s*` directly before a `|`: the whitespace run must contain a
newline; all of it is consumed (the character after it is non-blank). -/
def afterHeadingWs (csl : List Char) : Option (List Char) :=
  if (csl.takeWhile isWs).contains '\n' then some (csl.dropWhile isWs) else none

/-- `\*\*([^*]+)\*\*\s*\n\s*\|...`: a bold sub-table title followed by a
header line, a separator line and a row block.  Returns (title, row lines,
rest of the input after the table). -/
def matchSubTableAt : List Char → Option (List Char × List (List Char) × List Char)
  | c1 :: c2 :: rest =>
    if c1 = '*' ∧ c2 = '*' then
      let title := rest.takeWhile (· ≠ '*')
      if title = [] then none
      else
        match rest.dropWhile (· ≠ '*') with
        | c3 :: c4 :: rest2 =>
          if c3 = '*' ∧ c4 = '*' then
            match afterHeadingWs rest2 with
            | some rest3 =>
              match matchTableLine rest3 with
              | some (_, rest4) =>
                match matchTableLine (rest4.dropWhile isWs) with
                | some (_, rest5) =>
                  let p := rowsLoop rest5
                  some (title, p.1, p.2)
                | none => none
              | none => none
            | none => none
          else none
        | _ => none
    else none
  | _ => none

/-- Try each heading literal of an alternation in order. -/
def tryHeadings (hs : List (List Char)) (csl : List Char) : Option (List Char) :=
  match hs with
  | [] => none
  | h :: rest =>
    match dropLit h csl with
    | some r => some r
    | none => tryHeadings rest csl

/-- `####\s*(?:heading|…)\s*\n\s*\|...`: the main table directly following
a section heading; header line, separator line, then the row block. -/
def matchMainTableAt (hs : List (List Char)) : List Char → Option (List (List Char) × List Char)
  | c1 :: c2 :: c3 :: c4 :: rest =>
    if c1 = '#' ∧ c2 = '#' ∧ c3 = '#' ∧ c4 = '#' then
      match tryHeadings hs (rest.dropWhile isWs) with
      | some rest2 =>
        match afterHeadingWs rest2 with
        | some rest3 =>
          match matchTableLine rest3 with
          | some (_, rest4) =>
            match matchTableLine (rest4.dropWhile isWs) with
            | some (_, rest5) =>
              let p := rowsLoop rest5
              some (p.1, p.2)
            | none => none
          | none => none
        | none => none
      | none => none
    else none
  | _ => none

/-- A table found by the `re.finditer` pass: its title (`'root'` for the
main table after the section heading) and its data-row lines. -/
structure TitledTable where
  title : List Char
  rows : List (List Char)

/-- The `re.finditer(table_pattern, content)` scan: at every position try
the sub-table branch, then the main-table branch; on a match continue after
it (non-overlapping), otherwise advance one character. -/
def scanGo (hs : List (List Char)) : Nat → List Char → List TitledTable
  | 0, _ => []
  | _ + 1, [] => []
  | f + 1, c :: rest =>
    match matchSubTableAt (c :: rest) with
    | some (t, rows, r) => ⟨t, rows⟩ :: scanGo hs f r
    | none =>
      match matchMainTableAt hs (c :: rest) with
      | some (rows, r) => ⟨cs "root", rows⟩ :: scanGo hs f r
      | none => scanGo hs f rest

def scanTables (hs : List (List Char)) (content : List Char) : List TitledTable :=
  scanGo hs content.length content

/-- Parse one data-row line: strip, split on `|`, drop the outer empties,
strip each column; a row yields a property only with at least 4 columns. -/
def parseRowLine (line : List Char) : Option Row :=
  let cols := (((pySplit '|' (pyStrip line)).drop 1).dropLast).map pyStrip
  if 4 ≤ cols.length then
    some ⟨cols.getD 0 [], lowerL (cols.getD 1 []), cols.getD 2 [] = cs "是", cols.getD 3 []⟩
  else none

def parseRows (rows : List (List Char)) : List Row :=
  rows.filterMap parseRowLine

/-- `parsed_tables[title] = properties` over all found tables, in document
order, with dict-assignment semantics for duplicate titles. -/
def toParsedTables (ts : List TitledTable) : List (List Char × List Row) :=
  ts.foldl (fun acc t => alUpsert t.title (parseRows t.rows) acc) []

/-- The property/required accumulation loop shared by the root table and
every sub-table: properties are insert-or-update, `required` collects the
names of required rows in order. -/
def foldProps (rows : List Row) : List (List Char × Schema) × List (List Char) :=
  rows.foldl
    (fun acc r =>
      (alUpsert r.name (determine_schema_type r.type r.descr r.name) acc.1,
       if r.required then acc.2 ++ [r.name] else acc.2))
    ([], [])

/-- A sub-table converted to an object schema (with the empty `required`
list deleted). -/
def childSchemaOf (rows : List Row) : Schema :=
  let pr := foldProps rows
  Schema.mk (cs "object") none none none none (some pr.1)
    (if pr.2 = [] then none else some pr.2) none

/-- Merge one parsed table into the root properties: `'root'` is skipped,
a title without a second word is skipped, and a sub-table attaches to the
root property named by the title's first word — as `items` when the marker
contains `数组`/`array`, otherwise by replacement; titles naming no root
property are dropped. -/
def mergeSub (acc : List (List Char × Schema)) (title : List Char) (rows : List Row) :
    List (List Char × Schema) :=
  if title = cs "root" then acc
  else
    let parts := pySplit ' ' title
    if parts.length < 2 then acc
    else
      let parent := parts.headD []
      let objType := lowerL (pyJoin ' ' (parts.drop 1))
      let child := childSchemaOf rows
      match alGet parent acc with
      | none => acc
      | some cur =>
        if containsSub (cs "数组") objType ∨ containsSub (cs "array") objType then
          alUpsert parent (cur.setItems child) acc
        else alUpsert parent child acc

/-- Build the root object schema from the parsed tables: fold the `'root'`
rows, then merge every table (in dict order), then delete an empty
`required` list. -/
def buildSchemaFromTables (pts : List (List Char × List Row)) : Schema :=
  let rootPR :=
    match alGet (cs "root") pts with
    | some rows => foldProps rows
    | none => (([] : List (List Char × Schema)), ([] : List (List Char)))
  let props := pts.foldl (fun acc t => mergeSub acc t.1 t.2) rootPR.1
  Schema.mk (cs "object") none none none none (some props)
    (if rootPR.2 = [] then none else some rootPR.2) none

/-- The root-table properties of a parsed-tables list, before sub-table
merging (the dict against which sub-table parents are resolved). -/
def rootPropsOf (pts : List (List Char × List Row)) : List (List Char × Schema) :=
  (match alGet (cs "root") pts with
   | some rows => foldProps rows
   | none => (([] : List (List Char × Schema)), ([] : List (List Char)))).1

/-- `####\s*T\s*\n` at the current position, followed by the lazy capture
`([\s\S]+?)\n\n`: returns the captured section text. -/
def splitNlNlGo : Nat → List Char → Option (List Char × List Char)
  | 0, _ => none
  | _ + 1, [] => none
  | _ + 1, [_] => none
  | f + 1, c1 :: c2 :: rest =>
    if c1 = '\n' ∧ c2 = '\n' then some ([], rest)
    else (splitNlNlGo f (c2 :: rest)).map (fun p => (c1 :: p.1, p.2))

def splitNlNl (csl : List Char) : Option (List Char × List Char) :=
  splitNlNlGo csl.length csl

/-- `\s*\n` at a heading boundary: the whitespace run must contain a
newline; the capture starts after the run's last newline (greedy `\s*`
backtracking moves only blank whitespace into the capture, which every
consumer of a capture discards line-wise). -/
def afterLastNl (csl : List Char) : Option (List Char) :=
  let w := csl.takeWhile isWs
  if w.contains '\n' then
    some ((w.reverse.takeWhile (· ≠ '\n')).reverse ++ csl.dropWhile isWs)
  else none

def trySectionAt (title : List Char) : List Char → Option (List Char)
  | c1 :: c2 :: c3 :: c4 :: rest =>
    if c1 = '#' ∧ c2 = '#' ∧ c3 = '#' ∧ c4 = '#' then
      match dropLit title (rest.dropWhile isWs) with
      | some r2 =>
        match afterLastNl r2 with
        | some r3 =>
          match r3 with
          | [] => none
          | c :: r4 => (splitNlNl r4).map (fun p => c :: p.1)
        | none => none
      | none => none
    else none
  | _ => none

def sectionGo (title : List Char) : Nat → List Char → Option (List Char)
  | 0, _ => none
  | _ + 1, [] => none
  | f + 1, c :: rest =>
    match trySectionAt title (c :: rest) with
    | some g => some g
    | none => sectionGo title f rest

/-- `re.search(rf'####\s*{title}\s*\n([\s\S]+?)\n\n', content)`: the
captured section body of the leftmost match. -/
def sectionCapture (title content : List Char) : Option (List Char) :=
  sectionGo title content.length content

/-- `parse_request_body_schema(content)`. -/
def parse_request_body_schema (content : List Char) : Option Schema :=
  match sectionCapture (cs "请求体") content with
  | none => none
  | some _ =>
    match scanTables [cs "请求体"] content with
    | [] => none
    | t :: ts => some (buildSchemaFromTables (toParsedTables (t :: ts)))

/-- The response-section heading alternatives, in the order tried. -/
def respTitles : List (List Char) :=
  [cs "响应参数", cs "请求响应", cs "响应字段", cs "返回参数"]

/-- `for title in [...]:` — the first heading whose section regex matches. -/
def firstSectionOf (titles : List (List Char)) (content : List Char) : Option (List Char) :=
  match titles with
  | [] => none
  | t :: rest =>
    match sectionCapture t content with
    | some g => some g
    | none => firstSectionOf rest content

/-- `parse_response_schema(content)`. -/
def parse_response_schema (content : List Char) : Option Schema :=
  match firstSectionOf respTitles content with
  | none => none
  | some _ =>
    match scanTables respTitles content with
    | [] => none
    | t :: ts => some (buildSchemaFromTables (toParsedTables (t :: ts)))

/-- A deep-nesting document: root property `a` (object), sub-table
`a 对象` whose property `b` is array-typed, and sub-table `b 数组元素`
intended (by the nesting convention) as the items of `b`. -/
def docDeep : List Char :=
  cs "#### 请求体\n| 名称 | 类型 | 必填 | 描述 |\n| --- | --- | --- | --- |\n| a | object | 是 | o |\n\n**a 对象**\n| 名称 | 类型 | 必填 | 描述 |\n| --- | --- | --- | --- |\n| b | array | 是 | ar |\n\n**b 数组元素**\n| 名称 | 类型 | 必填 | 描述 |\n| --- | --- | --- | --- |\n| c | string | 是 | in |\n\n"

/-- One attempt of `re.search(r'###\s+(\w+)\s+([^\n]+)', content)` at the
current position: three `#`, blanks, a word (the method), blanks, then the
rest of the line (the raw path).  The greedy runs never backtrack because
`#`, `\s`, `\w` and `[^\n]` make disjoint decisions at every boundary the
program relies on (a title line is never a whitespace-only file tail). -/
def tryTitleAt : List Char → Option (List Char × List Char)
  | c1 :: c2 :: c3 :: rest =>
    if c1 = '#' ∧ c2 = '#' ∧ c3 = '#' then
      if rest.takeWhile isWs = [] then none
      else
        let r1 := rest.dropWhile isWs
        let m := r1.takeWhile isWordChar
        if m = [] then none
        else
          let r2 := r1.dropWhile isWordChar
          if r2.takeWhile isWs = [] then none
          else
            match r2.dropWhile isWs with
            | [] => none
            | c :: r3 => some (m, (c :: r3).takeWhile (· ≠ '\n'))
    else none
  | _ => none

def titleGo : Nat → List Char → Option (List Char × List Char)
  | 0, _ => none
  | _ + 1, [] => none
  | f + 1, c :: rest =>
    match tryTitleAt (c :: rest) with
    | some r => some r
    | none => titleGo f rest

/-- The title-line search: leftmost match of `###\s+(\w+)\s+([^\n]+)`. -/
def findTitle (content : List Char) : Option (List Char × List Char) :=
  titleGo content.length content

/-- One attempt of `re.search(r'###\s+\w+\s+[^\n]+\n+([^\n#]+)', content)`:
the description is the first following line run that does not start with a
newline or a `#`. -/
def tryDescAt : List Char → Option (List Char)
  | c1 :: c2 :: c3 :: rest =>
    if c1 = '#' ∧ c2 = '#' ∧ c3 = '#' then
      if rest.takeWhile isWs = [] then none
      else
        let r1 := rest.dropWhile isWs
        if r1.takeWhile isWordChar = [] then none
        else
          let r2 := r1.dropWhile isWordChar
          if r2.takeWhile isWs = [] then none
          else
            match r2.dropWhile isWs with
            | [] => none
            | c :: r3 =>
              let r4 := (c :: r3).dropWhile (· ≠ '\n')
              if r4.takeWhile (· = '\n') = [] then none
              else
                let r5 := r4.dropWhile (· = '\n')
                let g := r5.takeWhile (fun d => d ≠ '\n' ∧ d ≠ '#')
                if g = [] then none else some g
    else none
  | _ => none

def descGo : Nat → List Char → Option (List Char)
  | 0, _ => none
  | _ + 1, [] => none
  | f + 1, c :: rest =>
    match tryDescAt (c :: rest) with
    | some r => some r
    | none => descGo f rest

def findDesc (content : List Char) : Option (List Char) :=
  descGo content.length content

/-- `re.sub(r':([^/]+)', r'{\1}', path)` as a one-pass state machine:
at a `:` followed by a non-`/` character, open a brace group that closes
at the next `/` or at the end of the string.  The Bool is the
inside-a-group state. -/
def normColonsAux : Bool → List Char → List Char
  | false, [] => []
  | false, c :: rest =>
    if c = ':' then
      match rest with
      | [] => [':']
      | r :: _ => if r = '/' then c :: normColonsAux false rest else '{' :: normColonsAux true rest
    else c :: normColonsAux false rest
  | true, [] => ['}']
  | true, c :: rest =>
    if c = '/' then '}' :: c :: normColonsAux false rest else c :: normColonsAux true rest

def normalizeColons (l : List Char) : List Char :=
  normColonsAux false l

/-- `re.findall(r'{([^{}]+)}', path)` as a state machine: collect a
non-empty brace-free group between `{` and `}`; a `{` inside an open
attempt restarts the attempt (no earlier match can start inside the
brace-free collected run). -/
def braceAux : Option (List Char) → List Char → List (List Char)
  | none, [] => []
  | none, c :: rest => if c = '{' then braceAux (some []) rest else braceAux none rest
  | some _, [] => []
  | some acc, c :: rest =>
    if c = '}' then
      if acc = [] then braceAux none rest else acc.reverse :: braceAux none rest
    else if c = '{' then braceAux (some []) rest
    else braceAux (some (c :: acc)) rest

def findBraceParams (l : List Char) : List (List Char) :=
  braceAux none l

/-- One OpenAPI parameter dict: `name`, `in` (modelled as `loc`),
`required`, `description`, `schema`. -/
structure Param where
  name : List Char
  loc : List Char
  required : Bool
  descr : List Char
  schema : Schema

/-- `[line.strip() for line in table.splitlines() if '|' in line]`
(the documents use `\n` line endings). -/
def tableLines (sect : List Char) : List (List Char) :=
  ((pySplit '\n' sect).filter (fun l => l.contains '|')).map pyStrip

/-- `[h.strip() for h in line.split('|')[1:-1]]`. -/
def headerCols (line : List Char) : List (List Char) :=
  (((pySplit '|' line).drop 1).dropLast).map pyStrip

/-- One data row turned into its `(名称, 类型.lower(), 必填 == '是', 描述)`
fields through `dict(zip(headers, cols))`; rows whose column count differs
from the header are skipped. -/
def rowFields (headers : List (List Char)) (line : List Char) :
    Option (List Char × List Char × Bool × List Char) :=
  let cols := headerCols line
  if cols.length = headers.length then
    some (dictZipGet headers cols (cs "名称") [],
          lowerL (dictZipGet headers cols (cs "类型") []),
          dictZipGet headers cols (cs "必填") [] = cs "是",
          dictZipGet headers cols (cs "描述") [])
  else none

/-- The `请求头` table section: every row becomes an `in: header`
parameter (`determine_schema_type` called without a field name). -/
def headerSectionParams (content : List Char) : List Param :=
  match sectionCapture (cs "请求头") content with
  | none => []
  | some sect =>
    let lines := tableLines sect
    if 2 ≤ lines.length then
      let headers := headerCols (lines.headD [])
      (lines.drop 2).filterMap (fun line =>
        (rowFields headers line).map (fun f =>
          ⟨f.1, cs "header", f.2.2.1, f.2.2.2, determine_schema_type f.2.1 f.2.2.2 []⟩))
    else []

/-- The `请求头参数` table section: every row becomes an `in: header`
parameter (`determine_schema_type` called with the field name). -/
def headerParamSection (content : List Char) : List Param :=
  match sectionCapture (cs "请求头参数") content with
  | none => []
  | some sect =>
    let lines := tableLines sect
    if 2 ≤ lines.length then
      let headers := headerCols (lines.headD [])
      (lines.drop 2).filterMap (fun line =>
        (rowFields headers line).map (fun f =>
          ⟨f.1, cs "header", f.2.2.1, f.2.2.2, determine_schema_type f.2.1 f.2.2.2 f.1⟩))
    else []

/-- The first matching request-parameter section (`请求参数`, `请求字段`). -/
def reqParamsSection (content : List Char) : Option (List Char) :=
  firstSectionOf [cs "请求参数", cs "请求字段"] content

/-- For a GET: every request-parameter row becomes an `in: query` parameter. -/
def queryParamsOf (sect : List Char) : List Param :=
  let lines := tableLines sect
  let headers := headerCols (lines.headD [])
  (lines.drop 2).filterMap (fun line =>
    (rowFields headers line).map (fun f =>
      ⟨f.1, cs "query", f.2.2.1, f.2.2.2, determine_schema_type f.2.1 f.2.2.2 f.1⟩))

/-- The field names diverted to header parameters in the POST/PUT/PATCH
request-parameter branch. -/
def bodyHeaderNames : List (List Char) :=
  [cs "token", cs "authorization", cs "cookie", cs "content-type"]

/-- For POST/PUT/PATCH: rows with a header-carrying name become header
parameters, the rest become body-object properties with a `required`
collection (deleted when empty). -/
def bodyFromParamsTable (sect : List Char) : List Param × Schema :=
  let lines := tableLines sect
  let headers := headerCols (lines.headD [])
  let r := (lines.drop 2).foldl
    (fun (acc : List Param × List (List Char × Schema) × List (List Char)) line =>
      match rowFields headers line with
      | none => acc
      | some f =>
        if lowerL f.1 ∈ bodyHeaderNames then
          (acc.1 ++ [⟨f.1, cs "header", f.2.2.1, f.2.2.2, determine_schema_type f.2.1 f.2.2.2 f.1⟩],
           acc.2)
        else
          (acc.1,
           alUpsert f.1 (determine_schema_type f.2.1 f.2.2.2 f.1) acc.2.1,
           if f.2.2.1 then acc.2.2 ++ [f.1] else acc.2.2))
    ([], [], [])
  (r.1, Schema.mk (cs "object") none none none none (some r.2.1)
        (if r.2.2 = [] then none else some r.2.2) none)

/-- Find the first occurrence of a literal pattern: (before, after). -/
def findSubGo (pat : List Char) : Nat → List Char → Option (List Char × List Char)
  | 0, _ => none
  | _ + 1, [] =>
    match dropLit pat ([] : List Char) with
    | some after => some ([], after)
    | none => none
  | f + 1, c :: rest =>
    match dropLit pat (c :: rest) with
    | some after => some ([], after)
    | none => (findSubGo pat f rest).map (fun p => (c :: p.1, p.2))

def findSub (pat l : List Char) : Option (List Char × List Char) :=
  findSubGo pat l.length l

/-- Strip trailing whitespace. -/
def rstripWs (l : List Char) : List Char :=
  (l.reverse.dropWhile isWs).reverse

/-- The fenced-code capture `\x60\x60\x60(?:json)?\s*([\s\S]+?)\s*\x60\x60\x60`
applied after the fence: optional `json` tag, then the text up to the
closing fence with surrounding whitespace stripped.  When only whitespace
separates the fences the lazy group still matches one blank character,
which never parses as JSON — modelled by returning that blank. -/
def fenceLit : List Char := cs "\x60\x60\x60"

def extractFenced (r : List Char) : Option (List Char) :=
  let r1 := match dropLit (cs "json") r with | some x => x | none => r
  let w := r1.takeWhile isWs
  let r2 := r1.dropWhile isWs
  match findSub fenceLit r2 with
  | none => none
  | some (before, _) =>
    if before = [] then
      if w ≠ [] then some [w.getLastD ' ']
      else
        match r2 with
        | [] => none
        | c :: r3 => (findSub fenceLit r3).map (fun p => rstripWs (c :: p.1))
    else some (rstripWs before)

/-- One attempt of the example-block regex
`####\s*T\s*\n\x60\x60\x60(?:json)?\s*([\s\S]+?)\s*\x60\x60\x60`. -/
def tryExampleAt (title : List Char) : List Char → Option (List Char)
  | c1 :: c2 :: c3 :: c4 :: rest =>
    if c1 = '#' ∧ c2 = '#' ∧ c3 = '#' ∧ c4 = '#' then
      match dropLit title (rest.dropWhile isWs) with
      | some r2 =>
        match afterHeadingWs r2 with
        | some r3 =>
          match dropLit fenceLit r3 with
          | some r4 => extractFenced r4
          | none => none
        | none => none
      | none => none
    else none
  | _ => none

def exampleGo (title : List Char) : Nat → List Char → Option (List Char)
  | 0, _ => none
  | _ + 1, [] => none
  | f + 1, c :: rest =>
    match tryExampleAt title (c :: rest) with
    | some g => some g
    | none => exampleGo title f rest

/-- Leftmost match of the example-block regex for the given heading. -/
def findExample (title content : List Char) : Option (List Char) :=
  exampleGo title content.length content

/-- The values `json.loads` can produce, as the program inspects them
(float payloads are irrelevant to every `isinstance` decision taken). -/
inductive PyVal where
  | vstr (s : List Char)
  | vint (n : Int)
  | vfloat
  | vbool (b : Bool)
  | vnone
  | vlist (xs : List PyVal)
  | vdict (kvs : List (List Char × PyVal))

/-- JSON string body after the opening quote, with the common one-character
escapes (an interface model of `json.loads`; the documents' examples use no
exotic escapes). -/
def jsonStr : List Char → Option (List Char × List Char)
  | [] => none
  | '\\' :: e :: rest =>
    (jsonStr rest).map (fun p =>
      ((if e = 'n' then '\n' else if e = 't' then '\t' else if e = 'r' then '\r' else e) :: p.1,
       p.2))
  | c :: rest =>
    if c = '"' then some ([], rest)
    else (jsonStr rest).map (fun p => (c :: p.1, p.2))

def jsonSkip (l : List Char) : List Char :=
  l.dropWhile (fun c => c = ' ' || c = '\t' || c = '\n' || c = '\r')

def digitsToNat (l : List Char) : Nat :=
  l.foldl (fun n c => n * 10 + (c.toNat - '0'.toNat)) 0

/-- JSON number: an integer unless it carries a fraction or exponent. -/
def jsonNum (l : List Char) : Option (PyVal × List Char) :=
  let (neg, l1) := match l with
    | '-' :: rest => (true, rest)
    | _ => (false, l)
  let ds := l1.takeWhile Char.isDigit
  if ds = [] then none
  else
    let r := l1.dropWhile Char.isDigit
    match r with
    | c :: _ =>
      if c = '.' ∨ c = 'e' ∨ c = 'E' then
        some (.vfloat, r.dropWhile (fun d => d.isDigit || d = '.' || d = 'e' || d = 'E' || d = '+' || d = '-'))
      else some (.vint (if neg then -(digitsToNat ds : Int) else (digitsToNat ds : Int)), r)
    | [] => some (.vint (if neg then -(digitsToNat ds : Int) else (digitsToNat ds : Int)), [])

mutual

/-- Recursive-descent JSON value parser (interface model of `json.loads`). -/
def jsonVal : Nat → List Char → Option (PyVal × List Char)
  | 0, _ => none
  | f + 1, l =>
    match jsonSkip l with
    | [] => none
    | c :: rest =>
      if c = '"' then (jsonStr rest).map (fun p => (.vstr p.1, p.2))
      else if c = 't' then (dropLit (cs "rue") rest).map (fun r => (.vbool true, r))
      else if c = 'f' then (dropLit (cs "alse") rest).map (fun r => (.vbool false, r))
      else if c = 'n' then (dropLit (cs "ull") rest).map (fun r => (.vnone, r))
      else if c = '[' then
        match jsonSkip rest with
        | ']' :: r2 => some (.vlist [], r2)
        | r1 => (jsonArr f r1).map (fun p => (.vlist p.1, p.2))
      else if c = '{' then
        match jsonSkip rest with
        | '}' :: r2 => some (.vdict [], r2)
        | r1 => (jsonObj f r1).map (fun p => (.vdict p.1, p.2))
      else jsonNum (c :: rest)

def jsonArr : Nat → List Char → Option (List PyVal × List Char)
  | 0, _ => none
  | f + 1, l =>
    match jsonVal f l with
    | none => none
    | some (v, r) =>
      match jsonSkip r with
      | ',' :: r2 => (jsonArr f r2).map (fun p => (v :: p.1, p.2))
      | ']' :: r2 => some ([v], r2)
      | _ => none

def jsonObj : Nat → List Char → Option (List (List Char × PyVal) × List Char)
  | 0, _ => none
  | f + 1, l =>
    match jsonSkip l with
    | '"' :: r1 =>
      match jsonStr r1 with
      | none => none
      | some (k, r2) =>
        match jsonSkip r2 with
        | ':' :: r3 =>
          match jsonVal f r3 with
          | none => none
          | some (v, r4) =>
            match jsonSkip r4 with
            | ',' :: r5 => (jsonObj f r5).map (fun p => ((k, v) :: p.1, p.2))
            | '}' :: r5 => some ([(k, v)], r5)
            | _ => none
        | _ => none
    | _ => none

end

/-- `json.loads`, requiring the whole text to be consumed. -/
def jsonLoads (l : List Char) : Option PyVal :=
  match jsonVal (l.length + 1) l with
  | some (v, r) => if jsonSkip r = [] then some v else none
  | none => none

/-- The per-value schema of the example-based inference (lines 267–300).
The chain tests `str`, then `int`, then `float`, then `bool`, then `list`,
then `dict`; since `isinstance(True, int)` holds in Python, boolean values
are captured by the integer branch and the `bool` branch is unreachable. -/
def exampleFieldSchema (v : PyVal) : Schema :=
  match v with
  | .vstr _ => Schema.ofType (cs "string")
  | .vint _ => Schema.ofType (cs "integer")
  | .vbool _ => Schema.ofType (cs "integer")
  | .vfloat => Schema.ofType (cs "number")
  | .vlist xs =>
    let itemType :=
      match xs with
      | .vstr _ :: _ => cs "string"
      | .vint _ :: _ => cs "integer"
      | .vbool _ :: _ => cs "integer"
      | .vdict _ :: _ => cs "object"
      | _ => cs "string"
    Schema.mk (cs "array") none none none none none none (some (Schema.ofType itemType))
  | .vdict _ => Schema.ofType (cs "object")
  | .vnone => Schema.ofType (cs "string")

/-- The flat object schema inferred from a JSON example's items. -/
def exampleSchemaOf (items : List (List Char × PyVal)) : Schema :=
  Schema.mk (cs "object") none none none none
    (some (items.foldl (fun acc kv => alUpsert kv.1 (exampleFieldSchema kv.2) acc) []))
    none none

/-- Either an inline schema or a `$ref`. -/
inductive SchemaRef where
  | inline (s : Schema)
  | ref (name : List Char)

structure RequestBody where
  required : Bool
  schema : SchemaRef
  exampleJson : Option PyVal

structure Response where
  descr : List Char
  schema : SchemaRef

structure Operation where
  path : List Char
  method : List Char
  description : List Char
  parameters : List Param
  request_body : Option RequestBody
  responses : List (List Char × Response)
  response_schema : Option Schema

/-- Request-body strategy (a): the `请求体` table section with nested
composition, plus an attached request example when it parses. -/
def reqBodyBranchA (content : List Char) : Option RequestBody :=
  match sectionCapture (cs "请求体") content with
  | none => none
  | some _ =>
    match parse_request_body_schema content with
    | none => none
    | some sch =>
      some ⟨true, .inline sch, (findExample (cs "请求示例") content).bind jsonLoads⟩

/-- The fixed field-name pool of the mislabeled-example heuristic. -/
def request_fields : List (List Char) :=
  [cs "name", cs "title", cs "type", cs "status", cs "assignedTo",
   cs "date", cs "desc", cs "estStarted", cs "deadline"]

/-- Python `field in example_json`: key membership for dicts, element
equality for lists, substring test for strings; `none` models the
`TypeError` of `in` on other values, caught by the surrounding handler. -/
def anyRequestField (v : PyVal) : Option Bool :=
  match v with
  | .vdict kvs => some (request_fields.any (fun f => kvs.any (fun kv => kv.1 = f)))
  | .vlist xs => some (request_fields.any (fun f => xs.any (fun x =>
      match x with
      | .vstr s => s = f
      | _ => false)))
  | .vstr s => some (request_fields.any (fun f => containsSub f s))
  | _ => none

/-- The example text used by strategies (c)/(d): the request example, or —
for POST/PUT/PATCH — a response example whose parsed JSON mentions a known
request-ish field. -/
def chooseExampleText (content method : List Char) : Option (List Char) :=
  match findExample (cs "请求示例") content with
  | some t => some t
  | none =>
    if method = cs "post" ∨ method = cs "put" ∨ method = cs "patch" then
      match findExample (cs "响应示例") content with
      | some t =>
        match jsonLoads t with
        | some v =>
          match anyRequestField v with
          | some true => some t
          | _ => none
        | none => none
      | none => none
    else none

/-- Strategies (c)/(d): build a flat schema from the example JSON object;
non-dict or unparseable JSON raises and leaves the request body absent. -/
def exampleFallbackBody (content method : List Char) : Option RequestBody :=
  match chooseExampleText content method with
  | none => none
  | some t =>
    match jsonLoads t with
    | some (.vdict kvs) => some ⟨true, .inline (exampleSchemaOf kvs), some (.vdict kvs)⟩
    | _ => none

def errorRefName : List Char := cs "#/components/schemas/Error"

/-- The four fixed responses of every operation. -/
def mkResponses (rs : Option Schema) : List (List Char × Response) :=
  [(cs "200", ⟨cs "成功响应", .inline (rs.getD (Schema.ofType (cs "object")))⟩),
   (cs "400", ⟨cs "请求错误", .ref errorRefName⟩),
   (cs "401", ⟨cs "未授权", .ref errorRefName⟩),
   (cs "500", ⟨cs "服务器错误", .ref errorRefName⟩)]

/-- The synthesized optional `Token` header parameter. -/
def tokenParam : Param :=
  ⟨cs "Token", cs "header", false, cs "认证Token",
   Schema.mk (cs "string") none (some (cs "认证Token")) none none none none none⟩

def hasTokenHeader (ps : List Param) : Bool :=
  ps.any (fun p => lowerL p.name = cs "token" ∧ p.loc = cs "header")

/-- Append the synthetic `Token` header parameter when no Token header
parameter is present (case-insensitive name, `in=header`). -/
def appendToken (ps : List Param) : List Param :=
  if hasTokenHeader ps then ps else ps ++ [tokenParam]

/-- The number of Token header parameters of an operation. -/
def tokenHeaderCount (ps : List Param) : Nat :=
  (ps.filter (fun p => lowerL p.name = cs "token" ∧ p.loc = cs "header")).length

/-- A synthesized required string path parameter. -/
def mkPathParam (n : List Char) : Param :=
  ⟨n, cs "path", true, cs "路径参数 " ++ n, Schema.ofType (cs "string")⟩

/-- `parse_markdown_file(content)`: the whole per-document extraction. -/
def parse_markdown_file (content : List Char) : Option Operation :=
  match findTitle content with
  | none => none
  | some (mRaw, pRaw) =>
    let method := lowerL mRaw
    let path := rstripColon (normalizeColons (pyStrip pRaw))
    let description := match findDesc content with | some g => pyStrip g | none => []
    let pathParams := (findBraceParams path).map mkPathParam
    let headerPs := headerSectionParams content
    let rb_a := reqBodyBranchA content
    let stage_b : List Param × Option RequestBody :=
      if rb_a.isSome then ([], rb_a)
      else
        let hps := headerParamSection content
        match reqParamsSection content with
        | none => (hps, none)
        | some sect =>
          if 2 ≤ (tableLines sect).length then
            if method = cs "get" then (hps ++ queryParamsOf sect, none)
            else if method = cs "post" ∨ method = cs "put" ∨ method = cs "patch" then
              let pr := bodyFromParamsTable sect
              (hps ++ pr.1, some ⟨true, .inline pr.2, none⟩)
            else (hps, none)
          else (hps, none)
    let request_body :=
      match stage_b.2 with
      | some rb => some rb
      | none => exampleFallbackBody content method
    let response_schema := parse_response_schema content
    let ps := pathParams ++ headerPs ++ stage_b.1
    some ⟨path, method, description, appendToken ps, request_body,
          mkResponses response_schema, response_schema⟩

/-- `part[0].upper() + part[1:]`. -/
def upperFirst : List Char → List Char
  | [] => []
  | c :: rest => c.toUpper :: rest

/-- `generate_operation_id(path, method)`: split the path, turn `{...}`
segments into `Id`, capitalize the rest, prepend the lowercased method. -/
def generate_operation_id (path method : List Char) : List Char :=
  let parts := (pySplit '/' (stripSlash path)).filter (· ≠ [])
  let processed := parts.map (fun p =>
    if p.headD ' ' = '{' ∧ p.getLastD ' ' = '}' then cs "Id" else upperFirst p)
  lowerL method ++ processed.flatten

/-- `generate_schema_name(path, method, is_response)`. -/
def generate_schema_name (path method : List Char) (forResponse : Bool) : List Char :=
  let operation_id := generate_operation_id path method
  if forResponse then operation_id ++ cs "Response" else operation_id ++ cs "Request"

/-- The fixed shared `Error` schema. -/
def errorSchema : Schema :=
  Schema.mk (cs "object") none none none none
    (some [(cs "code", Schema.mk (cs "integer") none (some (cs "错误代码")) none none none none none),
           (cs "message", Schema.mk (cs "string") none (some (cs "错误信息")) none none none none none)])
    (some [cs "code", cs "message"]) none

/-- Rewrite the 200 response of an operation to a `$ref`. -/
def rewrite200 (op : Operation) (name : List Char) : Operation :=
  { op with responses := op.responses.map (fun kv =>
      if kv.1 = cs "200" then
        (kv.1, Response.mk kv.2.descr (SchemaRef.ref (cs "#/components/schemas/" ++ name)))
      else kv) }

/-- `extract_schemas_from_apis(api_list)`: starts from the `Error` schema,
registers every response/request schema under its generated name and
rewrites the operations to reference it.  Returns (schemas, updated list). -/
def extract_schemas_from_apis (apis : List (Option Operation)) :
    List (List Char × Schema) × List (Option Operation) :=
  apis.foldl
    (fun acc oapi =>
      match oapi with
      | none => (acc.1, acc.2 ++ [none])
      | some api =>
        let s1api1 :=
          match api.response_schema with
          | some rs =>
            let nm := generate_schema_name api.path api.method true
            (alUpsert nm rs acc.1, rewrite200 api nm)
          | none => (acc.1, api)
        let s2api2 :=
          let api1 := s1api1.2
          match api1.request_body with
          | some rb =>
            match rb.schema with
            | .inline s =>
              let nm := generate_schema_name api.path api.method false
              let rb2 := RequestBody.mk rb.required
                (SchemaRef.ref (cs "#/components/schemas/" ++ nm)) rb.exampleJson
              (alUpsert nm s s1api1.1, { api1 with request_body := some rb2 })
            | .ref _ => s1api1
          | none => s1api1
        (s2api2.1, acc.2 ++ [some s2api2.2]))
    ([(cs "Error", errorSchema)], [])

/-- `re.search(rf'{key}\s*(.+)', content)` for one sidecar field:
the text after the key, blanks skipped, up to the line end, stripped. -/
def fieldVal (key content : List Char) : Option (List Char) :=
  match findSub key content with
  | none => none
  | some (_, after) =>
    match after.dropWhile isWs with
    | [] => none
    | c :: rest => some (pyStrip ((c :: rest).takeWhile (· ≠ '\n')))

/-- `parse_info_md(info_path)`: the info dict starts with all four keys
bound to the empty string; `none` input models an unreadable sidecar, whose
exception is caught and leaves the initial dict. -/
def parse_info_md (fileContent : Option (List Char)) : List (List Char × List Char) :=
  let base : List (List Char × List Char) :=
    [(cs "version", []), (cs "time", []), (cs "url", []), (cs "account", [])]
  match fileContent with
  | none => base
  | some content =>
    let upd := fun (acc : List (List Char × List Char)) (k pat : List Char) =>
      match fieldVal pat content with
      | some v => alUpsert k v acc
      | none => acc
    upd (upd (upd (upd base (cs "version") (cs "禅道版本:"))
          (cs "time") (cs "爬取时间:"))
        (cs "url") (cs "API文档URL:"))
      (cs "account") (cs "账号:")

/-- `info_data.get(k, dflt)`. -/
def pyGet (info : List (List Char × List Char)) (k dflt : List Char) : List Char :=
  match alGet k info with
  | some v => v
  | none => dflt

/-- Lexicographic code-point order on the character-list model of `str`. -/
def lexLt : List Char → List Char → Bool
  | [], [] => false
  | [], _ :: _ => true
  | _ :: _, [] => false
  | a :: as, b :: bs => if a = b then lexLt as bs else decide (a < b)

def sortInsert (x : List Char) : List (List Char) → List (List Char)
  | [] => [x]
  | y :: ys => if lexLt x y then x :: y :: ys else y :: sortInsert x ys

/-- `sorted(set(tags))`. -/
def sortedDedup (l : List (List Char)) : List (List Char) :=
  (l.foldl (fun acc x => if x ∈ acc then acc else acc ++ [x]) []).foldl
    (fun acc x => sortInsert x acc) []

/-- `path.strip('/').split('/')[0]` (also correct when there is no `/`). -/
def firstSeg (path : List Char) : List Char :=
  (pySplit '/' (stripSlash path)).headD []

/-- The per-path-and-method operation object emitted under `paths`. -/
structure PathOp where
  tags : List (List Char)
  operationId : List Char
  summary : List Char
  parameters : List Param
  responses : List (List Char × Response)
  requestBody : Option RequestBody

structure OpenapiInfo where
  title : List Char
  version : List Char
  description : List Char

/-- The assembled OpenAPI document (the fixed security scheme is a
constant of the program and carries no claim-relevant data). -/
structure OpenapiDoc where
  openapi : List Char
  info : OpenapiInfo
  serverUrl : List Char
  schemas : List (List Char × Schema)
  tags : List (List Char)
  paths : List (List Char × List (List Char × PathOp))

def default_server_url : List Char := cs "http://192.168.0.72/zentao"

/-- `build_openapi_spec(api_list)`; the second argument is the sidecar
file's content (`none`: unreadable). -/
def build_openapi_spec (apis : List (Option Operation)) (infoFile : Option (List Char)) :
    OpenapiDoc :=
  let info_data := parse_info_md infoFile
  let es := extract_schemas_from_apis apis
  let descr :=
    cs "禅道版本: " ++ pyGet info_data (cs "version") [] ++
    cs "\n爬取时间: " ++ pyGet info_data (cs "time") [] ++
    cs "\nAPI文档URL: " ++ pyGet info_data (cs "url") [] ++
    cs "\n账号: " ++ pyGet info_data (cs "account") []
  let tags := sortedDedup ((es.2.filterMap id).map (fun api => firstSeg api.path)
    |>.filter (· ≠ []))
  let paths := es.2.foldl
    (fun acc oapi =>
      match oapi with
      | none => acc
      | some api =>
        let fs := firstSeg api.path
        let pop : PathOp :=
          ⟨if fs ≠ [] then [fs] else [], generate_operation_id api.path api.method,
           api.description, api.parameters, api.responses, api.request_body⟩
        alUpsert api.path (alUpsert api.method pop ((alGet api.path acc).getD [])) acc)
    []
  ⟨cs "3.0.0",
   ⟨cs "Zentao API", pyGet info_data (cs "version") (cs "unknown"), descr⟩,
   pyGet info_data (cs "url") default_server_url,
   es.1, tags, paths⟩

/-- A document whose `请求头` table itself lists two Token rows. -/
def docTwoToken : List Char :=
  cs "### GET /x\n\ndemo\n\n#### 请求头\n| 名称 | 类型 | 必填 | 描述 |\n| --- | --- | --- | --- |\n| Token | string | 是 | t1 |\n| token | string | 否 | t2 |\n\n"

/-- A document whose only request-body source is a JSON example with a
boolean value. -/
def docBoolExample : List Char :=
  cs "### POST /x\n\ndemo\n\n#### 请求示例\n\x60\x60\x60json\n\x7b\"flag\": true\x7d\n\x60\x60\x60\n"

/-- The claim's own JSON example, as `json.loads` returns it. -/
def exampleNameCountTags : List (List Char × PyVal) :=
  [(cs "name", .vstr (cs "x")), (cs "count", .vint 3),
   (cs "tags", .vlist [.vstr (cs "a"), .vstr (cs "b")])]

/-- The `required` part of the schema invariant: absent, or a non-empty
list of keys of `properties`. -/
def reqOK (req : Option (List (List Char))) (props : Option (List (List Char × Schema))) :
    Bool :=
  match req with
  | none => true
  | some r => decide (r ≠ []) && r.all (fun k => (props.getD []).any (fun kv => kv.1 = k))

mutual

/-- The object-schema invariant, recursively: `required` is absent or a
non-empty subset of the `properties` keys, in this schema and in every
property and items schema below it. -/
def requiredOK : Schema → Bool
  | .mk _ _ _ _ _ props req items =>
    reqOK req props &&
    (match props with
     | none => true
     | some l => propsOK l) &&
    (match items with
     | none => true
     | some s => requiredOK s)

def propsOK : List (List Char × Schema) → Bool
  | [] => true
  | kv :: rest => requiredOK kv.2 && propsOK rest

end

/-- A path segment: a literal resource name or a `{…}` template variable. -/
inductive Seg where
  | lit (s : List Char) : Seg
  | param (s : List Char) : Seg

def renderSeg : Seg → List Char
  | .lit s => s
  | .param s => '{' :: (s ++ ['}'])

/-- The textual path of a segment list: `/seg1/seg2/...`. -/
def renderPath (segs : List Seg) : List Char :=
  '/' :: pyJoin '/' (segs.map renderSeg)

/-- Well-formedness of a segment: literals are non-empty, slash-free and
not themselves brace-wrapped; parameter names are slash-free. -/
def segWf : Seg → Prop
  | .lit s => s ≠ [] ∧ (∀ c ∈ s, c ≠ '/') ∧ ¬(s.headD ' ' = '{' ∧ s.getLastD ' ' = '}')
  | .param s => ∀ c ∈ s, c ≠ '/'

/-- The segment transformation of `generate_operation_id`. -/
def processSeg : Seg → List Char
  | .lit s => upperFirst s
  | .param _ => cs "Id"

/-- One `value free-text` enum entry rendered into a description. -/
def renderEntry (e : List Char × List Char) : List Char :=
  if e.2 = [] then e.1 else e.1 ++ ' ' :: e.2

/-- A pipe-separated enum description body. -/
def renderEnumBody (entries : List (List Char × List Char)) : List Char :=
  pyJoin '|' (entries.map renderEntry)

/-- C10 request-side family: the sub-table `a 对象` for the request-body
root property `a` sits *after* the response-parameters section, separated
by `n+1` filler characters. -/
def docC10req (n : Nat) : List Char :=
  cs "#### 请求体\n|h|\n|-|\n| a | object | 是 | o |\n\n#### 响应参数\n|h|\n|-|\n| r | string | 是 | o |\n\nx"
    ++ List.replicate n 'x'
    ++ cs "\n\n**a 对象**\n|h|\n|-|\n| b | string | 否 | i |\n\n"

/-- C10 response-side family: the sub-table `r 对象` for the response
root property `r` sits inside the request-body region, *before* the
response-parameters section. -/
def docC10resp (n : Nat) : List Char :=
  cs "#### 请求体\n|h|\n|-|\n| q | string | 是 | o |\n\n**r 对象**\n|h|\n|-|\n| s | string | 否 | i |\n\nx"
    ++ List.replicate n 'x'
    ++ cs "\n\n#### 响应参数\n|h|\n|-|\n| r | object | 是 | o |\n\n"

/-- The schema `parse_request_body_schema` produces on `docC10req`. -/
def c10reqExpected : Schema :=
  Schema.mk (cs "object") none none none none
    (some [(cs "a",
      Schema.mk (cs "object") none none none none
        (some [(cs "b", Schema.mk (cs "string") none (some (cs "i")) none none none none none)])
        none none)])
    (some [cs "a"]) none

/-- The schema `parse_response_schema` produces on `docC10resp`. -/
def c10respExpected : Schema :=
  Schema.mk (cs "object") none none none none
    (some [(cs "r",
      Schema.mk (cs "object") none none none none
        (some [(cs "s", Schema.mk (cs "string") none (some (cs "i")) none none none none none)])
        none none)])
    (some [cs "r"]) none

/-- `docC10req n` without its leading `#`. -/
def c10reqPre1 : List Char :=
  cs "### 请求体\n|h|\n|-|\n| a | object | 是 | o |\n\n#### 响应参数\n|h|\n|-|\n| r | string | 是 | o |\n\nx"

/-- The concrete tail of `docC10req`. -/
def c10reqSuf : List Char := cs "\n\n**a 对象**\n|h|\n|-|\n| b | string | 否 | i |\n\n"

/-- What remains of `docC10req` after the scan consumes the root table. -/
def c10reqR1 : List Char := cs "\n#### 响应参数\n|h|\n|-|\n| r | string | 是 | o |\n\nx"

/-- `c10reqR1` after its newline and the four `#` of the response heading. -/
def c10reqMid : List Char := cs " 响应参数\n|h|\n|-|\n| r | string | 是 | o |\n\nx"

/-- `docC10resp n` after the four `#` of the request heading. -/
def c10respMid1 : List Char :=
  cs " 请求体\n|h|\n|-|\n| q | string | 是 | o |\n\n**r 对象**\n|h|\n|-|\n| s | string | 否 | i |\n\nx"

/-- The `#`- and `*`-free prefix of `c10respMid1`. -/
def c10respMidA : List Char := cs " 请求体\n|h|\n|-|\n| q | string | 是 | o |\n\n"

/-- The concrete tail of `docC10resp`. -/
def c10respSuf : List Char := cs "\n\n#### 响应参数\n|h|\n|-|\n| r | object | 是 | o |\n\n"

end Md2Openapi

namespace Md2Openapi

lemma takeWhile_all_append {p : Char → Bool} {xs : List Char} (y : Char) (ys : List Char)
    (hx : ∀ c ∈ xs, p c = true) (hy : p y = false) :
    (xs ++ y :: ys).takeWhile p = xs := by
  induction xs with
  | nil => simp [List.takeWhile_cons, hy]
  | cons a t ih =>
    have ha : p a = true := hx a (by simp)
    simp only [List.cons_append, List.takeWhile_cons, ha, if_true]
    rw [ih (fun c hc => hx c (by simp [hc]))]

lemma dropWhile_all_append {p : Char → Bool} {xs : List Char} (y : Char) (ys : List Char)
    (hx : ∀ c ∈ xs, p c = true) (hy : p y = false) :
    (xs ++ y :: ys).dropWhile p = y :: ys := by
  induction xs with
  | nil => simp [List.dropWhile_cons, hy]
  | cons a t ih =>
    have ha : p a = true := hx a (by simp)
    simp only [List.cons_append, List.dropWhile_cons, ha, if_true]
    exact ih (fun c hc => hx c (by simp [hc]))

lemma dropWhile_eq_self_of_head {p : Char → Bool} {l : List Char} {c : Char}
    (h : l.head? = some c) (hc : p c = false) : l.dropWhile p = l := by
  cases l with
  | nil => rfl
  | cons a t => simp at h; subst h; simp [List.dropWhile_cons, hc]

lemma takeWhile_all {p : Char → Bool} {l : List Char} (h : ∀ c ∈ l, p c = true) :
    l.takeWhile p = l := by
  induction l with
  | nil => rfl
  | cons a t ih =>
    simp only [List.takeWhile_cons, h a (by simp), if_true]
    rw [ih (fun c hc => h c (by simp [hc]))]

lemma dropWhile_all {p : Char → Bool} {l : List Char} (h : ∀ c ∈ l, p c = true) :
    l.dropWhile p = [] := by
  induction l with
  | nil => rfl
  | cons a t ih =>
    simp only [List.dropWhile_cons, h a (by simp), if_true]
    exact ih (fun c hc => h c (by simp [hc]))

lemma pyStrip_eq_self {l : List Char} (h1 : ∀ c, l.head? = some c → isWs c = false)
    (h2 : ∀ c, l.getLast? = some c → isWs c = false) : pyStrip l = l := by
  unfold pyStrip
  cases hl : l.head? with
  | none =>
    have : l = [] := by cases l <;> simp_all
    subst this; rfl
  | some c =>
    rw [dropWhile_eq_self_of_head hl (h1 c hl)]
    cases hg : l.getLast? with
    | none =>
      have : l = [] := by cases l using List.reverseRecOn <;> simp_all
      subst this; rfl
    | some d =>
      rw [dropWhile_eq_self_of_head (by rw [List.head?_reverse]; exact hg) (h2 d hg),
        List.reverse_reverse]

lemma pySplit_ne_nil (sep : Char) (l : List Char) : pySplit sep l ≠ [] := by
  induction l with
  | nil => simp [pySplit]
  | cons c rest ih =>
    by_cases h : c = sep
    · simp [pySplit, h]
    · simp only [pySplit, if_neg h]
      cases hs : pySplit sep rest with
      | nil => exact absurd hs ih
      | cons g gs => simp

lemma pySplit_sepFree {sep : Char} {l : List Char} (h : ∀ c ∈ l, c ≠ sep) :
    pySplit sep l = [l] := by
  induction l with
  | nil => rfl
  | cons c rest ih =>
    simp only [pySplit, if_neg (h c (by simp))]
    rw [ih (fun c hc => h c (by simp [hc]))]

lemma pySplit_append {sep : Char} {xs : List Char} (t : List Char)
    (h : ∀ c ∈ xs, c ≠ sep) :
    pySplit sep (xs ++ sep :: t) = xs :: pySplit sep t := by
  induction xs with
  | nil => simp [pySplit]
  | cons c rest ih =>
    simp only [List.cons_append, pySplit, if_neg (h c (by simp)), List.append_eq,
      ih (fun c hc => h c (by simp [hc]))]

lemma pyJoin_cons_of_ne (sep : Char) (p : List Char) {rest : List (List Char)}
    (h : rest ≠ []) : pyJoin sep (p :: rest) = p ++ sep :: pyJoin sep rest := by
  cases rest with
  | nil => exact absurd rfl h
  | cons q qs => rfl

lemma pyJoin_pySplit (sep : Char) (l : List Char) : pyJoin sep (pySplit sep l) = l := by
  induction l with
  | nil => rfl
  | cons c rest ih =>
    by_cases h : c = sep
    · simp only [pySplit, if_pos h]
      rw [pyJoin_cons_of_ne sep [] (pySplit_ne_nil sep rest), ih]
      simp [h]
    · simp only [pySplit, if_neg h]
      cases hs : pySplit sep rest with
      | nil => exact absurd hs (pySplit_ne_nil sep rest)
      | cons g gs =>
        rw [hs] at ih
        cases gs with
        | nil => simpa [pyJoin] using ih
        | cons g2 gs2 =>
          rw [pyJoin_cons_of_ne sep (c :: g) (by simp)]
          rw [pyJoin_cons_of_ne sep g (by simp)] at ih
          simpa using ih

lemma pySplit_pyJoin {sep : Char} {parts : List (List Char)} (hne : parts ≠ [])
    (h : ∀ p ∈ parts, ∀ c ∈ p, c ≠ sep) :
    pySplit sep (pyJoin sep parts) = parts := by
  induction parts with
  | nil => exact absurd rfl hne
  | cons p rest ih =>
    cases rest with
    | nil => exact pySplit_sepFree (h p (by simp))
    | cons q qs =>
      rw [pyJoin_cons_of_ne sep p (by simp),
        pySplit_append _ (h p (by simp)),
        ih (by simp) (fun r hr c hc => h r (by simp [hr]) c hc)]

lemma pyJoin_ne_nil {sep : Char} {parts : List (List Char)} (hne : parts ≠ [])
    (h : ∀ p ∈ parts, p ≠ []) : pyJoin sep parts ≠ [] := by
  cases parts with
  | nil => exact absurd rfl hne
  | cons p rest =>
    cases rest with
    | nil => exact h p (by simp)
    | cons q qs =>
      rw [pyJoin_cons_of_ne sep p (by simp)]
      have := h p (by simp)
      cases p <;> simp_all

lemma pyJoin_head? {sep : Char} {parts : List (List Char)} {p0 : List Char}
    (hp : parts.head? = some p0) (h0 : p0 ≠ []) :
    (pyJoin sep parts).head? = p0.head? := by
  cases parts with
  | nil => simp at hp
  | cons p rest =>
    simp only [List.head?_cons, Option.some.injEq] at hp
    subst hp
    cases rest with
    | nil => rfl
    | cons q qs =>
      rw [pyJoin_cons_of_ne sep p (by simp)]
      cases p with
      | nil => exact absurd rfl h0
      | cons a t => simp

lemma pyJoin_getLast? (sep : Char) {parts : List (List Char)} (hne : parts ≠ [])
    (h : ∀ p ∈ parts, p ≠ []) :
    (pyJoin sep parts).getLast? = (parts.getLast (by exact hne)).getLast? := by
  induction parts with
  | nil => exact absurd rfl hne
  | cons p rest ih =>
    cases rest with
    | nil => simp [pyJoin]
    | cons q qs =>
      rw [pyJoin_cons_of_ne sep p (by simp)]
      have hj : sep :: pyJoin sep (q :: qs) ≠ [] := by simp
      rw [List.getLast?_append_of_ne_nil _ hj]
      have hrec := ih (by simp) (fun r hr => h r (by simp [hr]))
      have hjoin_ne : pyJoin sep (q :: qs) ≠ [] :=
        pyJoin_ne_nil (by simp) (fun r hr => h r (by simp [hr]))
      calc (sep :: pyJoin sep (q :: qs)).getLast?
          = (pyJoin sep (q :: qs)).getLast? := by
            cases hcase : pyJoin sep (q :: qs) with
            | nil => exact absurd hcase hjoin_ne
            | cons a t => simp [List.getLast?_cons_cons]
        _ = ((q :: qs).getLast (by simp)).getLast? := hrec
        _ = (((p :: q :: qs)).getLast (by simp)).getLast? := by
            rw [List.getLast_cons_cons]

lemma renderSeg_ne_nil {g : Seg} (h : segWf g) : renderSeg g ≠ [] := by
  cases g with
  | lit s => exact h.1
  | param s => simp [renderSeg]

lemma renderSeg_slashFree {g : Seg} (h : segWf g) : ∀ c ∈ renderSeg g, c ≠ '/' := by
  cases g with
  | lit s => exact h.2.1
  | param s =>
    intro c hc
    simp only [renderSeg, List.mem_cons, List.mem_append, List.mem_singleton,
      List.not_mem_nil, or_false] at hc
    rcases hc with rfl | hc | rfl
    · decide
    · exact h c hc
    · decide

lemma stripSlash_renderPath {segs : List Seg} (hne : segs ≠ [])
    (hwf : ∀ g ∈ segs, segWf g) :
    stripSlash (renderPath segs) = pyJoin '/' (segs.map renderSeg) := by
  have hmapne : segs.map renderSeg ≠ [] := by simpa using hne
  have hpne : ∀ p ∈ segs.map renderSeg, p ≠ [] := by
    intro p hp
    rw [List.mem_map] at hp
    obtain ⟨g, hg, rfl⟩ := hp
    exact renderSeg_ne_nil (hwf g hg)
  have hslash : ∀ p ∈ segs.map renderSeg, ∀ c ∈ p, c ≠ '/' := by
    intro p hp
    rw [List.mem_map] at hp
    obtain ⟨g, hg, rfl⟩ := hp
    exact renderSeg_slashFree (hwf g hg)
  obtain ⟨g0, rest, rfl⟩ : ∃ g0 rest, segs = g0 :: rest := by
    cases segs with
    | nil => exact absurd rfl hne
    | cons a b => exact ⟨a, b, rfl⟩
  obtain ⟨c0, t0, hr0⟩ : ∃ c t, renderSeg g0 = c :: t := by
    cases hr : renderSeg g0 with
    | nil => exact absurd hr (renderSeg_ne_nil (hwf g0 (by simp)))
    | cons a b => exact ⟨a, b, rfl⟩
  have hJhead : (pyJoin '/' ((g0 :: rest).map renderSeg)).head? = some c0 := by
    rw [pyJoin_head?
        (show (List.map renderSeg (g0 :: rest)).head? = some (renderSeg g0) by simp)
        (renderSeg_ne_nil (hwf g0 (by simp))), hr0]
    rfl
  have hc0 : c0 ≠ '/' :=
    hslash (renderSeg g0) (by simp) c0 (by rw [hr0]; simp)
  have hlast := pyJoin_getLast? '/' hmapne hpne
  have hlmem := List.getLast_mem hmapne
  have hlne : ((g0 :: rest).map renderSeg).getLast hmapne ≠ [] := hpne _ hlmem
  obtain ⟨cl, hcl⟩ : ∃ cl, (((g0 :: rest).map renderSeg).getLast hmapne).getLast? = some cl := by
    cases hx : (((g0 :: rest).map renderSeg).getLast hmapne) with
    | nil => exact absurd hx hlne
    | cons a b => exact ⟨_, List.getLast?_eq_getLast _ (by simp)⟩
  have hclmem : cl ∈ ((g0 :: rest).map renderSeg).getLast hmapne := by
    have := List.getLast?_eq_getLast (((g0 :: rest).map renderSeg).getLast hmapne) hlne
    rw [this] at hcl
    cases hcl
    exact List.getLast_mem hlne
  have hclne : cl ≠ '/' := hslash _ hlmem cl hclmem
  unfold renderPath stripSlash
  have h1 : ('/' :: pyJoin '/' (List.map renderSeg (g0 :: rest))).dropWhile (· = '/')
      = (pyJoin '/' (List.map renderSeg (g0 :: rest))).dropWhile (· = '/') := by
    simp [List.dropWhile_cons]
  rw [h1, dropWhile_eq_self_of_head hJhead (by simp [hc0])]
  rw [dropWhile_eq_self_of_head (p := (· = '/'))
    (by rw [List.head?_reverse]; rw [hlast]; exact hcl) (by simp [hclne])]
  exact List.reverse_reverse _

lemma scanClose_append {b : List Char} (post : List Char)
    (h : ∀ c ∈ b, c ≠ ')' ∧ c ≠ '\n') : scanClose (b ++ ')' :: post) = some b := by
  induction b with
  | nil => simp [scanClose]
  | cons c t ih =>
    have hc := h c (by simp)
    simp only [List.cons_append, scanClose, if_neg hc.1, if_neg hc.2, List.append_eq,
      ih (fun d hd => h d (by simp [hd]))]
    rfl

lemma tryParenAt_fail {c : Char} (l : List Char) (h : c ≠ '(') :
    tryParenAt (c :: l) = none := by
  simp [tryParenAt, h]

lemma findParenGroup_cons (c : Char) (l : List Char) :
    findParenGroup (c :: l)
      = match tryParenAt (c :: l) with
        | some g => some g
        | none => findParenGroup l := rfl

lemma findParen_skip {pre : List Char} (rest : List Char) (h : ∀ c ∈ pre, c ≠ '(') :
    findParenGroup (pre ++ rest) = findParenGroup rest := by
  induction pre with
  | nil => rfl
  | cons c t ih =>
    rw [List.cons_append, findParenGroup_cons, tryParenAt_fail _ (h c (by simp))]
    exact ih (fun d hd => h d (by simp [hd]))

lemma mem_pyJoin {sep c : Char} {parts : List (List Char)}
    (h : c ∈ pyJoin sep parts) : c = sep ∨ ∃ p ∈ parts, c ∈ p := by
  induction parts with
  | nil => simp [pyJoin] at h
  | cons p rest ih =>
    cases rest with
    | nil =>
      right
      exact ⟨p, by simp, h⟩
    | cons q qs =>
      rw [pyJoin_cons_of_ne sep p (by simp)] at h
      rw [List.mem_append, List.mem_cons] at h
      rcases h with h | h | h
      · right; exact ⟨p, by simp, h⟩
      · left; exact h
      · rcases ih h with h' | ⟨r, hr, hcr⟩
        · left; exact h'
        · right; exact ⟨r, by simp [hr], hcr⟩

lemma renderEntry_ne_nil {e : List Char × List Char} (h : e.1 ≠ []) :
    renderEntry e ≠ [] := by
  unfold renderEntry
  by_cases hd : e.2 = [] <;> simp [hd, h]

lemma mem_renderEntry {c : Char} {e : List Char × List Char}
    (h : c ∈ renderEntry e) : c ∈ e.1 ∨ c = ' ' ∨ c ∈ e.2 := by
  unfold renderEntry at h
  by_cases hd : e.2 = []
  · rw [if_pos hd] at h; exact Or.inl h
  · rw [if_neg hd, List.mem_append, List.mem_cons] at h
    rcases h with h | h | h
    · exact Or.inl h
    · exact Or.inr (Or.inl h)
    · exact Or.inr (Or.inr h)

lemma requiredOK_of_none {s : Schema} (h1 : s.props = none) (h2 : s.req = none)
    (h3 : s.items = none) : requiredOK s = true := by
  cases s with
  | mk t f d e ed props req items =>
    simp only [Schema.props] at h1
    simp only [Schema.req] at h2
    simp only [Schema.items] at h3
    subst h1
    subst h2
    subst h3
    simp [requiredOK, reqOK]

lemma determine_shape (pt pd pn : List Char) :
    (determine_schema_type pt pd pn).props = none
    ∧ (determine_schema_type pt pd pn).req = none
    ∧ (determine_schema_type pt pd pn).items = none := by
  by_cases h : pn ≠ [] ∧ lowerL pn = cs "desc" <;>
    refine ⟨?_, ?_, ?_⟩ <;>
    (unfold determine_schema_type; first | rw [if_pos h] | rw [if_neg h]) <;> rfl

lemma requiredOK_determine (pt pd pn : List Char) :
    requiredOK (determine_schema_type pt pd pn) = true :=
  requiredOK_of_none (determine_shape pt pd pn).1 (determine_shape pt pd pn).2.1
    (determine_shape pt pd pn).2.2

lemma propsOK_cons {kv : List Char × Schema} {rest : List (List Char × Schema)} :
    propsOK (kv :: rest) = (requiredOK kv.2 && propsOK rest) := by
  simp [propsOK]

lemma propsOK_alUpsert {l : List (List Char × Schema)} {k : List Char} {v : Schema}
    (hl : propsOK l = true) (hv : requiredOK v = true) :
    propsOK (alUpsert k v l) = true := by
  induction l with
  | nil => simp [alUpsert, propsOK, hv]
  | cons kv rest ih =>
    rw [propsOK_cons, Bool.and_eq_true] at hl
    by_cases hk : kv.1 = k
    · simp only [alUpsert, if_pos hk]
      rw [propsOK_cons]
      simp [hv, hl.2]
    · simp only [alUpsert, if_neg hk]
      rw [propsOK_cons]
      simp [hl.1, ih hl.2]

lemma propsOK_alGet {l : List (List Char × Schema)} {k : List Char} {v : Schema}
    (hl : propsOK l = true) (h : alGet k l = some v) : requiredOK v = true := by
  induction l with
  | nil => simp [alGet] at h
  | cons kv rest ih =>
    rw [propsOK_cons, Bool.and_eq_true] at hl
    by_cases hk : kv.1 = k
    · simp only [alGet, if_pos hk, Option.some.injEq] at h
      subst h
      exact hl.1
    · simp only [alGet, if_neg hk] at h
      exact ih hl.2 h

lemma anyKey_alUpsert_self (k : List Char) (v : Schema) (l : List (List Char × Schema)) :
    (alUpsert k v l).any (fun kv => kv.1 = k) = true := by
  induction l with
  | nil => simp [alUpsert]
  | cons kv rest ih =>
    by_cases hk : kv.1 = k
    · simp [alUpsert, hk]
    · simp only [alUpsert, if_neg hk, List.any_cons]
      simp [ih]

lemma anyKey_alUpsert_mono {l : List (List Char × Schema)} {k' : List Char}
    (k : List Char) (v : Schema) (h : l.any (fun kv => kv.1 = k') = true) :
    (alUpsert k v l).any (fun kv => kv.1 = k') = true := by
  induction l with
  | nil => simp at h
  | cons kv rest ih =>
    by_cases hk : kv.1 = k
    · rw [List.any_cons, Bool.or_eq_true] at h
      rcases h with h | h
      · simp only [alUpsert, if_pos hk, List.any_cons]
        simp only [decide_eq_true_eq] at h
        simp [← hk, h]
      · simp [alUpsert, if_pos hk, List.any_cons, h]
    · rw [List.any_cons, Bool.or_eq_true] at h
      simp only [alUpsert, if_neg hk, List.any_cons]
      rcases h with h | h
      · simp [h]
      · simp [ih h]

lemma alGet_some_anyKey {l : List (List Char × Schema)} {k : List Char} {v : Schema}
    (h : alGet k l = some v) : l.any (fun kv => kv.1 = k) = true := by
  induction l with
  | nil => simp [alGet] at h
  | cons kv rest ih =>
    by_cases hk : kv.1 = k
    · simp [List.any_cons, hk]
    · simp only [alGet, if_neg hk] at h
      simp [List.any_cons, ih h]

lemma anyKey_alUpsert_of_mem {l : List (List Char × Schema)} {k : List Char} (v : Schema)
    (hmem : l.any (fun kv => kv.1 = k) = true) (k' : List Char) :
    (alUpsert k v l).any (fun kv => kv.1 = k') = l.any (fun kv => kv.1 = k') := by
  induction l with
  | nil => simp at hmem
  | cons kv rest ih =>
    by_cases hk : kv.1 = k
    · simp only [alUpsert, if_pos hk, List.any_cons]
      rw [hk]
    · rw [List.any_cons, Bool.or_eq_true] at hmem
      rcases hmem with h | h
      · simp only [decide_eq_true_eq] at h
        exact absurd h hk
      · simp only [alUpsert, if_neg hk, List.any_cons]
        rw [ih h]

lemma foldProps_inv (rows : List Row) :
    propsOK (foldProps rows).1 = true
    ∧ ∀ k ∈ (foldProps rows).2, ((foldProps rows).1.any (fun kv => kv.1 = k)) = true := by
  suffices h : ∀ acc : List (List Char × Schema) × List (List Char),
      propsOK acc.1 = true →
      (∀ k ∈ acc.2, (acc.1.any (fun kv => kv.1 = k)) = true) →
      propsOK (rows.foldl (fun acc r =>
          (alUpsert r.name (determine_schema_type r.type r.descr r.name) acc.1,
           if r.required then acc.2 ++ [r.name] else acc.2)) acc).1 = true
      ∧ ∀ k ∈ (rows.foldl (fun acc r =>
          (alUpsert r.name (determine_schema_type r.type r.descr r.name) acc.1,
           if r.required then acc.2 ++ [r.name] else acc.2)) acc).2,
          ((rows.foldl (fun acc r =>
            (alUpsert r.name (determine_schema_type r.type r.descr r.name) acc.1,
             if r.required then acc.2 ++ [r.name] else acc.2)) acc).1.any
            (fun kv => kv.1 = k)) = true by
    exact h ([], []) rfl (by simp)
  induction rows with
  | nil => intro acc h1 h2; exact ⟨h1, h2⟩
  | cons r rest ih =>
    intro acc h1 h2
    rw [List.foldl_cons]
    apply ih
    · exact propsOK_alUpsert h1 (requiredOK_determine _ _ _)
    · intro k hk
      by_cases hr : r.required
      · simp only [if_pos hr, List.mem_append, List.mem_singleton] at hk
        rcases hk with hk | rfl
        · exact anyKey_alUpsert_mono _ _ (h2 k hk)
        · exact anyKey_alUpsert_self _ _ _
      · simp only [if_neg hr] at hk
        exact anyKey_alUpsert_mono _ _ (h2 k hk)

lemma requiredOK_childSchemaOf (rows : List Row) :
    requiredOK (childSchemaOf rows) = true := by
  have h := foldProps_inv rows
  unfold childSchemaOf
  dsimp only
  simp only [requiredOK]
  rw [Bool.and_eq_true, Bool.and_eq_true]
  refine ⟨⟨?_, h.1⟩, rfl⟩
  unfold reqOK
  by_cases hr : (foldProps rows).2 = []
  · simp [hr]
  · rw [if_neg hr]
    simp only [Option.getD_some]
    rw [Bool.and_eq_true]
    refine ⟨by simpa using hr, ?_⟩
    rw [List.all_eq_true]
    intro k hk
    exact h.2 k hk

lemma requiredOK_setItems {s child : Schema} (hs : requiredOK s = true)
    (hc : requiredOK child = true) : requiredOK (s.setItems child) = true := by
  cases s with
  | mk t f d e ed props req items =>
    unfold requiredOK at hs
    rw [Bool.and_eq_true] at hs
    show requiredOK (Schema.mk t f d e ed props req (some child)) = true
    unfold requiredOK
    rw [Bool.and_eq_true]
    exact ⟨hs.1, hc⟩

lemma mergeSub_propsOK {acc : List (List Char × Schema)} (title : List Char)
    (rows : List Row) (h : propsOK acc = true) :
    propsOK (mergeSub acc title rows) = true := by
  unfold mergeSub
  dsimp only
  split
  · exact h
  · split
    · exact h
    · cases hg : alGet ((pySplit ' ' title).headD []) acc with
      | none => simpa [hg] using h
      | some cur =>
        simp only [hg]
        split
        · exact propsOK_alUpsert h
            (requiredOK_setItems (propsOK_alGet h hg) (requiredOK_childSchemaOf rows))
        · exact propsOK_alUpsert h (requiredOK_childSchemaOf rows)

lemma mergeSub_keys (acc : List (List Char × Schema)) (title : List Char)
    (rows : List Row) (k : List Char) :
    (mergeSub acc title rows).any (fun kv => kv.1 = k)
      = acc.any (fun kv => kv.1 = k) := by
  unfold mergeSub
  dsimp only
  split
  · rfl
  · split
    · rfl
    · cases hg : alGet ((pySplit ' ' title).headD []) acc with
      | none => simp [hg]
      | some cur =>
        simp only [hg]
        split
        · exact anyKey_alUpsert_of_mem _ (alGet_some_anyKey hg) k
        · exact anyKey_alUpsert_of_mem _ (alGet_some_anyKey hg) k

lemma requiredOK_assemble {props : List (List Char × Schema)} {req : List (List Char)}
    (hp : propsOK props = true)
    (hk : ∀ k ∈ req, (props.any (fun kv => kv.1 = k)) = true) :
    requiredOK (Schema.mk (cs "object") none none none none (some props)
      (if req = [] then none else some req) none) = true := by
  unfold requiredOK
  rw [Bool.and_eq_true, Bool.and_eq_true]
  refine ⟨⟨?_, hp⟩, rfl⟩
  by_cases hq : req = []
  · simp [reqOK, hq]
  · rw [if_neg hq]
    unfold reqOK
    simp only [Option.getD_some]
    rw [Bool.and_eq_true]
    refine ⟨by simpa using hq, ?_⟩
    rw [List.all_eq_true]
    exact hk

lemma buildSchemaFromTables_ok (pts : List (List Char × List Row)) :
    requiredOK (buildSchemaFromTables pts) = true := by
  unfold buildSchemaFromTables
  obtain ⟨rp, hrp⟩ : ∃ rp, (match alGet (cs "root") pts with
      | some rows => foldProps rows
      | none => (([] : List (List Char × Schema)), ([] : List (List Char)))) = rp := ⟨_, rfl⟩
  have hroot : propsOK rp.1 = true
      ∧ ∀ k ∈ rp.2, (rp.1.any (fun kv => kv.1 = k)) = true := by
    rw [← hrp]
    cases alGet (cs "root") pts with
    | none => exact ⟨rfl, by simp⟩
    | some rows => exact foldProps_inv rows
  rw [hrp]
  have hfold : ∀ (ts : List (List Char × List Row)) (p0 : List (List Char × Schema)),
      propsOK p0 = true →
      propsOK (ts.foldl (fun acc t => mergeSub acc t.1 t.2) p0) = true
      ∧ ∀ k, ((ts.foldl (fun acc t => mergeSub acc t.1 t.2) p0).any (fun kv => kv.1 = k))
          = (p0.any (fun kv => kv.1 = k)) := by
    intro ts
    induction ts with
    | nil => intro p0 h; exact ⟨h, fun k => rfl⟩
    | cons t rest ih =>
      intro p0 h
      rw [List.foldl_cons]
      have h1 := mergeSub_propsOK t.1 t.2 h
      obtain ⟨ha, hb⟩ := ih (mergeSub p0 t.1 t.2) h1
      refine ⟨ha, fun k => ?_⟩
      rw [hb k, mergeSub_keys]
  obtain ⟨hfa, hfb⟩ := hfold pts rp.1 hroot.1
  apply requiredOK_assemble hfa
  intro k hk
  rw [hfb k]
  exact hroot.2 k hk

lemma bodyFromParamsTable_ok (sect : List Char) :
    requiredOK (bodyFromParamsTable sect).2 = true := by
  have hinv : ∀ (headers : List (List Char)) (ls : List (List Char))
      (acc : List Param × List (List Char × Schema) × List (List Char)),
      propsOK acc.2.1 = true →
      (∀ k ∈ acc.2.2, (acc.2.1.any (fun kv => kv.1 = k)) = true) →
      propsOK ((ls.foldl
        (fun (acc : List Param × List (List Char × Schema) × List (List Char)) line =>
          match rowFields headers line with
          | none => acc
          | some f =>
            if lowerL f.1 ∈ bodyHeaderNames then
              (acc.1 ++ [⟨f.1, cs "header", f.2.2.1, f.2.2.2,
                determine_schema_type f.2.1 f.2.2.2 f.1⟩], acc.2)
            else
              (acc.1,
               alUpsert f.1 (determine_schema_type f.2.1 f.2.2.2 f.1) acc.2.1,
               if f.2.2.1 then acc.2.2 ++ [f.1] else acc.2.2)) acc)).2.1 = true
      ∧ ∀ k ∈ ((ls.foldl
        (fun (acc : List Param × List (List Char × Schema) × List (List Char)) line =>
          match rowFields headers line with
          | none => acc
          | some f =>
            if lowerL f.1 ∈ bodyHeaderNames then
              (acc.1 ++ [⟨f.1, cs "header", f.2.2.1, f.2.2.2,
                determine_schema_type f.2.1 f.2.2.2 f.1⟩], acc.2)
            else
              (acc.1,
               alUpsert f.1 (determine_schema_type f.2.1 f.2.2.2 f.1) acc.2.1,
               if f.2.2.1 then acc.2.2 ++ [f.1] else acc.2.2)) acc)).2.2,
        (((ls.foldl
          (fun (acc : List Param × List (List Char × Schema) × List (List Char)) line =>
            match rowFields headers line with
            | none => acc
            | some f =>
              if lowerL f.1 ∈ bodyHeaderNames then
                (acc.1 ++ [⟨f.1, cs "header", f.2.2.1, f.2.2.2,
                  determine_schema_type f.2.1 f.2.2.2 f.1⟩], acc.2)
              else
                (acc.1,
                 alUpsert f.1 (determine_schema_type f.2.1 f.2.2.2 f.1) acc.2.1,
                 if f.2.2.1 then acc.2.2 ++ [f.1] else acc.2.2)) acc)).2.1.any
          (fun kv => kv.1 = k)) = true := by
    intro headers ls
    induction ls with
    | nil => intro acc h1 h2; exact ⟨h1, h2⟩
    | cons line rest ih =>
      intro acc h1 h2
      rw [List.foldl_cons]
      apply ih
      · cases hrf : rowFields headers line with
        | none =>
          simp only [hrf]
          exact h1
        | some f =>
          by_cases hh : lowerL f.1 ∈ bodyHeaderNames
          · simp only [hrf, if_pos hh]
            exact h1
          · simp only [hrf, if_neg hh]
            exact propsOK_alUpsert h1 (requiredOK_determine _ _ _)
      · cases hrf : rowFields headers line with
        | none =>
          simp only [hrf]
          exact h2
        | some f =>
          by_cases hh : lowerL f.1 ∈ bodyHeaderNames
          · simp only [hrf, if_pos hh]
            exact h2
          · simp only [hrf, if_neg hh]
            intro k hk
            by_cases hreq : f.2.2.1
            · rw [if_pos hreq, List.mem_append, List.mem_singleton] at hk
              rcases hk with hk | rfl
              · exact anyKey_alUpsert_mono _ _ (h2 k hk)
              · exact anyKey_alUpsert_self _ _ _
            · rw [if_neg hreq] at hk
              exact anyKey_alUpsert_mono _ _ (h2 k hk)
  unfold bodyFromParamsTable
  dsimp only
  obtain ⟨ha, hb⟩ := hinv (headerCols ((tableLines sect).headD []))
    ((tableLines sect).drop 2) ([], [], []) rfl (by simp)
  exact requiredOK_assemble ha hb

lemma alGet_append_single_ne {α : Type} {k : List Char} {t : List Char × α}
    (l : List (List Char × α)) (h : t.1 ≠ k) : alGet k (l ++ [t]) = alGet k l := by
  induction l with
  | nil => simp [alGet, h]
  | cons kv rest ih =>
    by_cases hk : kv.1 = k
    · simp [alGet, hk]
    · simp only [List.cons_append, alGet, if_neg hk]
      exact ih

lemma anyKey_false_alGet_none {l : List (List Char × Schema)} {k : List Char}
    (h : (l.any (fun kv => kv.1 = k)) = false) : alGet k l = none := by
  induction l with
  | nil => rfl
  | cons kv rest ih =>
    rw [List.any_cons] at h
    rcases Bool.or_eq_false_iff.mp h with ⟨h1, h2⟩
    simp only [alGet, if_neg (by simpa using h1)]
    exact ih h2

lemma anyKey_true_alGet_some {l : List (List Char × Schema)} {k : List Char}
    (h : (l.any (fun kv => kv.1 = k)) = true) : ∃ v, alGet k l = some v := by
  induction l with
  | nil => simp at h
  | cons kv rest ih =>
    by_cases hk : kv.1 = k
    · exact ⟨kv.2, by simp [alGet, hk]⟩
    · rw [List.any_cons, Bool.or_eq_true] at h
      rcases h with h | h
      · simp only [decide_eq_true_eq] at h
        exact absurd h hk
      · obtain ⟨v, hv⟩ := ih h
        exact ⟨v, by simp only [alGet, if_neg hk]; exact hv⟩

lemma alGet_alUpsert_self {α : Type} (k : List Char) (v : α) (l : List (List Char × α)) :
    alGet k (alUpsert k v l) = some v := by
  induction l with
  | nil => simp [alUpsert, alGet]
  | cons kv rest ih =>
    by_cases hk : kv.1 = k
    · simp [alUpsert, hk, alGet]
    · simp only [alUpsert, if_neg hk, alGet, if_neg hk]
      exact ih

lemma mergeFold_keys (ts : List (List Char × List Row)) (p0 : List (List Char × Schema))
    (k : List Char) :
    ((ts.foldl (fun acc t => mergeSub acc t.1 t.2) p0).any (fun kv => kv.1 = k))
      = (p0.any (fun kv => kv.1 = k)) := by
  induction ts generalizing p0 with
  | nil => rfl
  | cons t rest ih =>
    rw [List.foldl_cons, ih, mergeSub_keys]

lemma notRoot_of_space {name marker : List Char} :
    name ++ ' ' :: marker ≠ cs "root" := by
  intro h
  have : ' ' ∈ cs "root" := by
    rw [← h]
    simp
  revert this
  decide

end Md2Openapi

namespace Md2Openapi

lemma isWordChar_not_ws {c : Char} (h : isWordChar c = true) : isWs c = false := by
  cases hw : isWs c
  · rfl
  · exfalso
    unfold isWs at hw
    simp only [Bool.or_eq_true, decide_eq_true_eq] at hw
    rcases hw with ((((h1 | h2) | h3) | h4) | h5) | h6 <;> subst_vars <;>
      exact absurd h (by decide)

lemma filterMap_param_loc {α : Type} (l : List α) (f : α → Option Param) (loc : List Char)
    (hf : ∀ a p, f a = some p → p.loc = loc) :
    ∀ q ∈ l.filterMap f, q.loc = loc := by
  intro q hq
  rw [List.mem_filterMap] at hq
  obtain ⟨a, _, hfa⟩ := hq
  exact hf a q hfa

lemma headerSectionParams_loc (content : List Char) :
    ∀ q ∈ headerSectionParams content, q.loc = cs "header" := by
  intro q hq
  unfold headerSectionParams at hq
  split at hq
  · exact absurd hq (by simp)
  · dsimp only at hq
    split at hq
    · refine filterMap_param_loc _ _ _ ?_ q hq
      intro a p h
      cases hr : rowFields (headerCols ((tableLines _).headD [])) a with
      | none => rw [hr] at h; cases h
      | some f =>
        rw [hr] at h
        injection h with h
        rw [← h]
    · exact absurd hq (by simp)

lemma headerParamSection_loc (content : List Char) :
    ∀ q ∈ headerParamSection content, q.loc = cs "header" := by
  intro q hq
  unfold headerParamSection at hq
  split at hq
  · exact absurd hq (by simp)
  · dsimp only at hq
    split at hq
    · refine filterMap_param_loc _ _ _ ?_ q hq
      intro a p h
      cases hr : rowFields (headerCols ((tableLines _).headD [])) a with
      | none => rw [hr] at h; cases h
      | some f =>
        rw [hr] at h
        injection h with h
        rw [← h]
    · exact absurd hq (by simp)

lemma queryParamsOf_loc (sect : List Char) :
    ∀ q ∈ queryParamsOf sect, q.loc = cs "query" := by
  intro q hq
  unfold queryParamsOf at hq
  dsimp only at hq
  refine filterMap_param_loc _ _ _ ?_ q hq
  intro a p h
  cases hr : rowFields (headerCols ((tableLines sect).headD [])) a with
  | none => rw [hr] at h; cases h
  | some f =>
    rw [hr] at h
    injection h with h
    rw [← h]

lemma bodyFromParamsTable_loc (sect : List Char) :
    ∀ q ∈ (bodyFromParamsTable sect).1, q.loc = cs "header" := by
  unfold bodyFromParamsTable
  dsimp only
  have hfold : ∀ (lines : List (List Char)) (headers : List (List Char))
      (acc : List Param × List (List Char × Schema) × List (List Char)),
      (∀ q ∈ acc.1, q.loc = cs "header") →
      ∀ q ∈ (lines.foldl
        (fun (acc : List Param × List (List Char × Schema) × List (List Char)) line =>
          match rowFields headers line with
          | none => acc
          | some f =>
            if lowerL f.1 ∈ bodyHeaderNames then
              (acc.1 ++ [⟨f.1, cs "header", f.2.2.1, f.2.2.2,
                          determine_schema_type f.2.1 f.2.2.2 f.1⟩], acc.2)
            else
              (acc.1, alUpsert f.1 (determine_schema_type f.2.1 f.2.2.2 f.1) acc.2.1,
               if f.2.2.1 then acc.2.2 ++ [f.1] else acc.2.2)) acc).1,
        q.loc = cs "header" := by
    intro lines
    induction lines with
    | nil => intro headers acc hacc; exact hacc
    | cons line rest ih =>
      intro headers acc hacc q hq
      rw [List.foldl_cons] at hq
      refine ih headers _ ?_ q hq
      intro r hr
      cases hrow : rowFields headers line with
      | none =>
        simp only [hrow] at hr
        exact hacc r hr
      | some f =>
        simp only [hrow] at hr
        split at hr
        · rcases List.mem_append.mp hr with h | h
          · exact hacc r h
          · rw [List.mem_singleton] at h
            rw [h]
        · exact hacc r hr
  exact hfold (List.drop 2 (tableLines sect)) (headerCols ((tableLines sect).headD []))
    ([], [], []) (by intro q hq; exact absurd hq (by simp))

lemma filter_path_appendToken (pp hd sb : List Param)
    (hpp : ∀ q ∈ pp, q.loc = cs "path")
    (hhd : ∀ q ∈ hd, q.loc ≠ cs "path")
    (hsb : ∀ q ∈ sb, q.loc ≠ cs "path") :
    (appendToken (pp ++ hd ++ sb)).filter (fun q => q.loc = cs "path") = pp := by
  have hfil : (pp ++ hd ++ sb).filter (fun q => decide (q.loc = cs "path")) = pp := by
    rw [List.filter_append, List.filter_append]
    rw [List.filter_eq_self.mpr (fun q hq => by simpa using hpp q hq)]
    rw [List.filter_eq_nil_iff.mpr (fun q hq => by simpa using hhd q hq)]
    rw [List.filter_eq_nil_iff.mpr (fun q hq => by simpa using hsb q hq)]
    simp
  unfold appendToken
  split
  · exact hfil
  · rw [List.filter_append, hfil]
    rw [show List.filter (fun q => decide (q.loc = cs "path")) [tokenParam] = [] from rfl]
    rw [List.append_nil]

lemma findTitle_of_line (method P tail : List Char)
    (hm : method ≠ []) (hmw : ∀ c ∈ method, isWordChar c = true)
    (hpn : P ≠ []) (hp0 : isWs (P.headD 'a') = false) (hnl : ∀ c ∈ P, c ≠ '\n') :
    findTitle (cs "### " ++ (method ++ ' ' :: (P ++ '\n' :: tail))) = some (method, P) := by
  obtain ⟨m0, m', rfl⟩ : ∃ m0 m', method = m0 :: m' := by
    cases method with
    | nil => exact absurd rfl hm
    | cons a t => exact ⟨a, t, rfl⟩
  obtain ⟨p0, P', rfl⟩ : ∃ p0 P', P = p0 :: P' := by
    cases P with
    | nil => exact absurd rfl hpn
    | cons a t => exact ⟨a, t, rfl⟩
  have hm0 : isWs m0 = false := isWordChar_not_ws (hmw m0 (by simp))
  have hp0' : isWs p0 = false := by simpa using hp0
  have hstep : cs "### " ++ ((m0 :: m') ++ ' ' :: ((p0 :: P') ++ '\n' :: tail))
      = '#' :: '#' :: '#' :: ' ' ::
        ((m0 :: m') ++ ' ' :: ((p0 :: P') ++ '\n' :: tail)) := by
    rw [show cs "### " = ['#', '#', '#', ' '] from by decide]
    simp only [List.cons_append, List.nil_append]
  rw [hstep]
  have htry : tryTitleAt ('#' :: '#' :: '#' :: ' ' ::
      ((m0 :: m') ++ ' ' :: ((p0 :: P') ++ '\n' :: tail))) = some (m0 :: m', p0 :: P') := by
    simp only [tryTitleAt]
    rw [if_pos (by simp)]
    have hne1 : (' ' :: ((m0 :: m') ++ ' ' :: ((p0 :: P') ++ '\n' :: tail))).takeWhile isWs
        ≠ [] := by
      rw [List.takeWhile_cons, if_pos (by decide : isWs ' ' = true)]
      exact List.cons_ne_nil _ _
    rw [if_neg hne1]
    have hdr1 : (' ' :: ((m0 :: m') ++ ' ' :: ((p0 :: P') ++ '\n' :: tail))).dropWhile isWs
        = (m0 :: m') ++ ' ' :: ((p0 :: P') ++ '\n' :: tail) := by
      rw [List.dropWhile_cons, if_pos (by decide : isWs ' ' = true)]
      exact dropWhile_eq_self_of_head (by simp) hm0
    rw [hdr1]
    rw [takeWhile_all_append ' ' ((p0 :: P') ++ '\n' :: tail) hmw (by decide)]
    rw [if_neg (List.cons_ne_nil m0 m')]
    rw [dropWhile_all_append ' ' ((p0 :: P') ++ '\n' :: tail) hmw (by decide)]
    have hne2 : (' ' :: ((p0 :: P') ++ '\n' :: tail)).takeWhile isWs ≠ [] := by
      rw [List.takeWhile_cons, if_pos (by decide : isWs ' ' = true)]
      exact List.cons_ne_nil _ _
    rw [if_neg hne2]
    have hdr2 : (' ' :: ((p0 :: P') ++ '\n' :: tail)).dropWhile isWs
        = (p0 :: P') ++ '\n' :: tail := by
      rw [List.dropWhile_cons, if_pos (by decide : isWs ' ' = true)]
      exact dropWhile_eq_self_of_head (by simp) hp0'
    rw [hdr2]
    rw [show (p0 :: P') ++ '\n' :: tail = p0 :: (P' ++ '\n' :: tail) from rfl]
    dsimp only
    rw [show p0 :: (P' ++ '\n' :: tail) = (p0 :: P') ++ '\n' :: tail from rfl]
    rw [takeWhile_all_append '\n' tail
      (fun c hc => decide_eq_true (hnl c hc)) (by decide)]
  unfold findTitle
  rw [show ('#' :: '#' :: '#' :: ' ' ::
      ((m0 :: m') ++ ' ' :: ((p0 :: P') ++ '\n' :: tail))).length
    = (('#' :: '#' :: ' ' ::
      ((m0 :: m') ++ ' ' :: ((p0 :: P') ++ '\n' :: tail))).length) + 1
    from rfl]
  rw [show titleGo (('#' :: '#' :: ' ' ::
        ((m0 :: m') ++ ' ' :: ((p0 :: P') ++ '\n' :: tail))).length + 1)
      ('#' :: '#' :: '#' :: ' ' :: ((m0 :: m') ++ ' ' :: ((p0 :: P') ++ '\n' :: tail)))
    = match tryTitleAt ('#' :: '#' :: '#' :: ' ' ::
        ((m0 :: m') ++ ' ' :: ((p0 :: P') ++ '\n' :: tail))) with
      | some r => some r
      | none => titleGo (('#' :: '#' :: ' ' ::
          ((m0 :: m') ++ ' ' :: ((p0 :: P') ++ '\n' :: tail))).length)
          ('#' :: '#' :: ' ' :: ((m0 :: m') ++ ' ' :: ((p0 :: P') ++ '\n' :: tail)))
    from rfl]
  rw [htry]

lemma normColonsAux_false_app {l : List Char} (r : List Char) (h : ∀ c ∈ l, c ≠ ':') :
    normColonsAux false (l ++ r) = l ++ normColonsAux false r := by
  induction l with
  | nil => rfl
  | cons c t ih =>
    rw [List.cons_append]
    simp only [normColonsAux]
    rw [if_neg (h c (by simp))]
    rw [ih (fun d hd => h d (by simp [hd]))]
    rfl

lemma normColonsAux_false_all {l : List Char} (h : ∀ c ∈ l, c ≠ ':') :
    normColonsAux false l = l := by
  have h2 := normColonsAux_false_app (l := l) [] h
  rw [List.append_nil] at h2
  rw [h2, show normColonsAux false ([] : List Char) = [] from rfl, List.append_nil]

lemma normColonsAux_true_app {l : List Char} (r : List Char) (h : ∀ c ∈ l, c ≠ '/') :
    normColonsAux true (l ++ r) = l ++ normColonsAux true r := by
  induction l with
  | nil => rfl
  | cons c t ih =>
    rw [List.cons_append]
    simp only [normColonsAux]
    rw [if_neg (h c (by simp))]
    rw [ih (fun d hd => h d (by simp [hd]))]
    rfl

lemma normalizeColons_family (a x b : List Char)
    (ha : ∀ c ∈ a, c ≠ ':') (hx : x ≠ []) (hxs : ∀ c ∈ x, c ≠ '/')
    (hb : ∀ c ∈ b, c ≠ ':') :
    normalizeColons ('/' :: (a ++ '/' :: ':' :: (x ++ '/' :: b)))
      = '/' :: (a ++ '/' :: '{' :: (x ++ '}' :: '/' :: b)) := by
  obtain ⟨x0, x', rfl⟩ : ∃ x0 x', x = x0 :: x' := by
    cases x with
    | nil => exact absurd rfl hx
    | cons c t => exact ⟨c, t, rfl⟩
  unfold normalizeColons
  rw [show normColonsAux false ('/' :: (a ++ '/' :: ':' :: ((x0 :: x') ++ '/' :: b)))
      = '/' :: normColonsAux false (a ++ '/' :: ':' :: ((x0 :: x') ++ '/' :: b)) from rfl]
  rw [normColonsAux_false_app ('/' :: ':' :: ((x0 :: x') ++ '/' :: b)) ha]
  rw [show normColonsAux false ('/' :: ':' :: ((x0 :: x') ++ '/' :: b))
      = '/' :: normColonsAux false (':' :: ((x0 :: x') ++ '/' :: b)) from rfl]
  rw [show (x0 :: x') ++ '/' :: b = x0 :: (x' ++ '/' :: b) from rfl]
  rw [show normColonsAux false (':' :: (x0 :: (x' ++ '/' :: b)))
      = if x0 = '/' then ':' :: normColonsAux false (x0 :: (x' ++ '/' :: b))
        else '{' :: normColonsAux true (x0 :: (x' ++ '/' :: b)) from rfl]
  rw [if_neg (hxs x0 (by simp))]
  rw [show x0 :: (x' ++ '/' :: b) = (x0 :: x') ++ '/' :: b from rfl]
  rw [normColonsAux_true_app ('/' :: b) hxs]
  rw [show normColonsAux true ('/' :: b) = '}' :: '/' :: normColonsAux false b from rfl]
  rw [normColonsAux_false_all hb]

lemma braceAux_none_app {l : List Char} (r : List Char) (h : ∀ c ∈ l, c ≠ '\x7b') :
    braceAux none (l ++ r) = braceAux none r := by
  induction l with
  | nil => rfl
  | cons c t ih =>
    rw [List.cons_append]
    simp only [braceAux]
    rw [if_neg (h c (by simp))]
    exact ih (fun d hd => h d (by simp [hd]))

lemma braceAux_none_all {l : List Char} (h : ∀ c ∈ l, c ≠ '\x7b') :
    braceAux none l = [] := by
  have := braceAux_none_app (l := l) [] h
  simpa using this

lemma braceAux_collect {l : List Char} (r : List Char) (acc : List Char)
    (h : ∀ c ∈ l, c ≠ '\x7b' ∧ c ≠ '\x7d') :
    braceAux (some acc) (l ++ r) = braceAux (some (l.reverse ++ acc)) r := by
  induction l generalizing acc with
  | nil => simp
  | cons c t ih =>
    rw [List.cons_append]
    simp only [braceAux]
    rw [if_neg (h c (by simp)).2, if_neg (h c (by simp)).1]
    rw [ih _ (fun d hd => h d (by simp [hd]))]
    rw [List.reverse_cons, List.append_assoc]
    rfl

lemma findBraceParams_family (a x b : List Char)
    (ha : ∀ c ∈ a, c ≠ '\x7b') (hx : x ≠ [])
    (hxs : ∀ c ∈ x, c ≠ '\x7b' ∧ c ≠ '\x7d') (hb : ∀ c ∈ b, c ≠ '\x7b') :
    findBraceParams ('/' :: (a ++ '/' :: '{' :: (x ++ '}' :: '/' :: b))) = [x] := by
  unfold findBraceParams
  rw [show braceAux none ('/' :: (a ++ '/' :: '{' :: (x ++ '}' :: '/' :: b)))
      = braceAux none (a ++ '/' :: '{' :: (x ++ '}' :: '/' :: b)) from rfl]
  rw [braceAux_none_app ('/' :: '{' :: (x ++ '}' :: '/' :: b)) ha]
  rw [show braceAux none ('/' :: '{' :: (x ++ '}' :: '/' :: b))
      = braceAux (some []) (x ++ '}' :: '/' :: b) from rfl]
  rw [braceAux_collect ('}' :: '/' :: b) [] hxs]
  rw [List.append_nil]
  rw [show braceAux (some x.reverse) ('}' :: '/' :: b)
      = if x.reverse = [] then braceAux none ('/' :: b)
        else x.reverse.reverse :: braceAux none ('/' :: b) from rfl]
  rw [if_neg (by simp [hx])]
  rw [List.reverse_reverse]
  rw [show braceAux none ('/' :: b) = braceAux none b from rfl]
  rw [braceAux_none_all hb]

lemma mem_of_getLast_some {l : List Char} {c : Char} (h : l.getLast? = some c) :
    c ∈ l := by
  cases l using List.reverseRecOn with
  | nil => simp at h
  | append_singleton t d =>
    rw [List.getLast?_concat] at h
    injection h with h
    subst h
    simp

lemma rstripColon_eq_self {l : List Char}
    (h : ∀ c, l.getLast? = some c → c ≠ ':') : rstripColon l = l := by
  unfold rstripColon
  cases hg : l.getLast? with
  | none =>
    have : l = [] := by
      cases l using List.reverseRecOn with
      | nil => rfl
      | append_singleton t c => simp at hg
    subst this
    rfl
  | some d =>
    rw [dropWhile_eq_self_of_head (by rw [List.head?_reverse]; exact hg)
      (by simpa using h d hg)]
    exact List.reverse_reverse l

end Md2Openapi

namespace Md2Openapi

lemma length_dropWhile_le (p : Char → Bool) (l : List Char) :
    (l.dropWhile p).length ≤ l.length := by
  induction l with
  | nil => exact Nat.le_refl _
  | cons c t ih =>
    rw [List.dropWhile_cons]
    by_cases h : p c = true
    · rw [if_pos h]
      exact Nat.le_succ_of_le ih
    · rw [if_neg h]

lemma dropLit_le {pat : List Char} : ∀ {l r : List Char}, dropLit pat l = some r →
    r.length ≤ l.length := by
  induction pat with
  | nil =>
    intro l r h
    simp only [dropLit, Option.some.injEq] at h
    subst h
    exact Nat.le_refl _
  | cons a pat ih =>
    intro l r h
    cases l with
    | nil => simp [dropLit] at h
    | cons c t =>
      simp only [dropLit] at h
      by_cases hc : c = a
      · rw [if_pos hc] at h
        exact Nat.le_succ_of_le (ih h)
      · rw [if_neg hc] at h
        cases h

lemma tryHeadings_le : ∀ {hs : List (List Char)} {l r : List Char},
    tryHeadings hs l = some r → r.length ≤ l.length := by
  intro hs
  induction hs with
  | nil => intro l r h; simp [tryHeadings] at h
  | cons a hs ih =>
    intro l r h
    simp only [tryHeadings] at h
    cases hd : dropLit a l with
    | some r2 =>
      simp only [hd, Option.some.injEq] at h
      subst h
      exact dropLit_le hd
    | none =>
      simp only [hd] at h
      exact ih h

lemma matchTableLine_lt {l L r : List Char} (h : matchTableLine l = some (L, r)) :
    r.length < l.length := by
  cases l with
  | nil => simp [matchTableLine] at h
  | cons c t =>
    simp only [matchTableLine] at h
    by_cases hc : c = '|'
    · rw [if_pos hc] at h
      try dsimp only at h
      cases hd : (c :: t).dropWhile (fun x => decide (x ≠ '\n')) with
      | nil => simp only [hd] at h; exact Option.noConfusion h
      | cons d rest2 =>
        simp only [hd] at h
        split at h
        · simp only [Option.some.injEq, Prod.mk.injEq] at h
          have hlen : (d :: rest2).length ≤ (c :: t).length := by
            rw [← hd]
            exact length_dropWhile_le _ _
          rw [← h.2]
          simp only [List.length_cons] at hlen ⊢
          omega
        · cases h
    · rw [if_neg hc] at h
      cases h

lemma afterHeadingWs_le {l r : List Char} (h : afterHeadingWs l = some r) :
    r.length ≤ l.length := by
  unfold afterHeadingWs at h
  split at h
  · simp only [Option.some.injEq] at h
    subst h
    exact length_dropWhile_le _ _
  · cases h

lemma rowsGo_snd_le : ∀ (f : Nat) (csl : List Char), (rowsGo f csl).2.length ≤ csl.length := by
  intro f
  induction f with
  | zero => intro csl; exact Nat.le_refl _
  | succ f ih =>
    intro csl
    rw [show rowsGo (f + 1) csl
        = match matchTableLine (csl.dropWhile isWs) with
          | some (L, rest) => (L :: (rowsGo f rest).1, (rowsGo f rest).2)
          | none => ([], csl)
      from rfl]
    cases hm : matchTableLine (csl.dropWhile isWs) with
    | none => exact Nat.le_refl _
    | some p =>
      obtain ⟨L, rest⟩ := p
      have h1 : rest.length < (csl.dropWhile isWs).length := matchTableLine_lt hm
      have h2 : (csl.dropWhile isWs).length ≤ csl.length := length_dropWhile_le _ _
      have h3 := ih rest
      simp only []
      omega

lemma matchSubTableAt_lt : ∀ {l : List Char} {t : List Char} {rows : List (List Char)}
    {r : List Char}, matchSubTableAt l = some (t, rows, r) → r.length < l.length := by
  intro l t rows r h
  match l with
  | [] => cases h
  | [_] => cases h
  | c1 :: c2 :: rest =>
    simp only [matchSubTableAt] at h
    split at h
    · try dsimp only at h
      split at h
      · cases h
      · cases hdw : rest.dropWhile (fun x => decide (x ≠ '*')) with
        | nil => simp only [hdw] at h; exact Option.noConfusion h
        | cons c3 l2 =>
          cases l2 with
          | nil => simp only [hdw] at h; exact Option.noConfusion h
          | cons c4 rest2 =>
            simp only [hdw] at h
            split at h
            · cases haw : afterHeadingWs rest2 with
              | none => simp only [haw] at h; exact Option.noConfusion h
              | some rest3 =>
                simp only [haw] at h
                cases hm1 : matchTableLine rest3 with
                | none => simp only [hm1] at h; exact Option.noConfusion h
                | some p1 =>
                  obtain ⟨L1, rest4⟩ := p1
                  simp only [hm1] at h
                  cases hm2 : matchTableLine (rest4.dropWhile isWs) with
                  | none => simp only [hm2] at h; exact Option.noConfusion h
                  | some p2 =>
                    obtain ⟨L2, rest5⟩ := p2
                    simp only [hm2, Option.some.injEq, Prod.mk.injEq] at h
                    have e1 : (c3 :: c4 :: rest2).length ≤ rest.length := by
                      rw [← hdw]
                      exact length_dropWhile_le _ _
                    have e2 : rest3.length ≤ rest2.length := afterHeadingWs_le haw
                    have e3 : rest4.length < rest3.length := matchTableLine_lt hm1
                    have e4 : rest5.length < (rest4.dropWhile isWs).length :=
                      matchTableLine_lt hm2
                    have e5 : (rest4.dropWhile isWs).length ≤ rest4.length :=
                      length_dropWhile_le _ _
                    have e6 : (rowsLoop rest5).2.length ≤ rest5.length := rowsGo_snd_le _ _
                    rw [← h.2.2]
                    simp only [List.length_cons] at e1 ⊢
                    omega
            · cases h
    · cases h

lemma matchMainTableAt_lt : ∀ {hs : List (List Char)} {l : List Char}
    {rows : List (List Char)} {r : List Char},
    matchMainTableAt hs l = some (rows, r) → r.length < l.length := by
  intro hs l rows r h
  match l with
  | [] => cases h
  | [_] => cases h
  | [_, _] => cases h
  | [_, _, _] => cases h
  | c1 :: c2 :: c3 :: c4 :: rest =>
    simp only [matchMainTableAt] at h
    split at h
    · cases hth : tryHeadings hs (rest.dropWhile isWs) with
      | none => simp only [hth] at h; exact Option.noConfusion h
      | some rest2 =>
        simp only [hth] at h
        cases haw : afterHeadingWs rest2 with
        | none => simp only [haw] at h; exact Option.noConfusion h
        | some rest3 =>
          simp only [haw] at h
          cases hm1 : matchTableLine rest3 with
          | none => simp only [hm1] at h; exact Option.noConfusion h
          | some p1 =>
            obtain ⟨L1, rest4⟩ := p1
            simp only [hm1] at h
            cases hm2 : matchTableLine (rest4.dropWhile isWs) with
            | none => simp only [hm2] at h; exact Option.noConfusion h
            | some p2 =>
              obtain ⟨L2, rest5⟩ := p2
              simp only [hm2, Option.some.injEq, Prod.mk.injEq] at h
              have e0 : (rest.dropWhile isWs).length ≤ rest.length :=
                length_dropWhile_le _ _
              have e1 : rest2.length ≤ (rest.dropWhile isWs).length := tryHeadings_le hth
              have e2 : rest3.length ≤ rest2.length := afterHeadingWs_le haw
              have e3 : rest4.length < rest3.length := matchTableLine_lt hm1
              have e4 : rest5.length < (rest4.dropWhile isWs).length :=
                matchTableLine_lt hm2
              have e5 : (rest4.dropWhile isWs).length ≤ rest4.length :=
                length_dropWhile_le _ _
              have e6 : (rowsLoop rest5).2.length ≤ rest5.length := rowsGo_snd_le _ _
              rw [← h.2]
              simp only [List.length_cons]
              omega
    · cases h

lemma scanGo_succ (hs : List (List Char)) (f : Nat) (c : Char) (rest : List Char) :
    scanGo hs (f + 1) (c :: rest)
      = match matchSubTableAt (c :: rest) with
        | some (t, rows, r) => ⟨t, rows⟩ :: scanGo hs f r
        | none =>
          match matchMainTableAt hs (c :: rest) with
          | some (rows, r) => ⟨cs "root", rows⟩ :: scanGo hs f r
          | none => scanGo hs f rest := rfl

lemma scanGo_fuel_eq (hs : List (List Char)) :
    ∀ (N : Nat) (l : List Char), l.length ≤ N → ∀ f, l.length ≤ f →
      scanGo hs f l = scanGo hs l.length l := by
  intro N
  induction N with
  | zero =>
    intro l hl f hf
    have : l = [] := List.eq_nil_of_length_eq_zero (Nat.le_zero.mp hl)
    subst this
    cases f <;> rfl
  | succ N ih =>
    intro l hl f hf
    cases l with
    | nil => cases f <;> rfl
    | cons c rest =>
      cases f with
      | zero => simp at hf
      | succ f' =>
        rw [scanGo_succ]
        rw [show (c :: rest).length = rest.length + 1 from rfl, scanGo_succ]
        have hrN : rest.length ≤ N := by
          simp only [List.length_cons] at hl
          omega
        have hrf : rest.length ≤ f' := by
          simp only [List.length_cons] at hf
          omega
        cases hsub : matchSubTableAt (c :: rest) with
        | some val =>
          obtain ⟨t, rows, r⟩ := val
          have hr : r.length < (c :: rest).length := matchSubTableAt_lt hsub
          simp only [List.length_cons] at hr
          simp only []
          congr 1
          rw [ih r (by omega) f' (by omega), ih r (by omega) rest.length (by omega)]
        | none =>
          simp only []
          cases hmain : matchMainTableAt hs (c :: rest) with
          | some val =>
            obtain ⟨rows, r⟩ := val
            have hr : r.length < (c :: rest).length := matchMainTableAt_lt hmain
            simp only [List.length_cons] at hr
            simp only []
            congr 1
            rw [ih r (by omega) f' (by omega), ih r (by omega) rest.length (by omega)]
          | none =>
            simp only []
            exact ih rest hrN f' hrf

lemma scanTables_cons_skip (hs : List (List Char)) (c : Char) (rest : List Char)
    (h1 : matchSubTableAt (c :: rest) = none)
    (h2 : matchMainTableAt hs (c :: rest) = none) :
    scanTables hs (c :: rest) = scanTables hs rest := by
  unfold scanTables
  rw [show (c :: rest).length = rest.length + 1 from rfl, scanGo_succ]
  simp only [h1, h2]

lemma scanTables_sub (hs : List (List Char)) (c : Char) (rest : List Char)
    (t : List Char) (rows : List (List Char)) (r : List Char)
    (h : matchSubTableAt (c :: rest) = some (t, rows, r)) :
    scanTables hs (c :: rest) = ⟨t, rows⟩ :: scanTables hs r := by
  unfold scanTables
  rw [show (c :: rest).length = rest.length + 1 from rfl, scanGo_succ]
  simp only [h]
  congr 1
  have hr : r.length < (c :: rest).length := matchSubTableAt_lt h
  simp only [List.length_cons] at hr
  exact scanGo_fuel_eq hs r.length r (Nat.le_refl _) rest.length (by omega)

lemma scanTables_main (hs : List (List Char)) (c : Char) (rest : List Char)
    (rows : List (List Char)) (r : List Char)
    (h1 : matchSubTableAt (c :: rest) = none)
    (h2 : matchMainTableAt hs (c :: rest) = some (rows, r)) :
    scanTables hs (c :: rest) = ⟨cs "root", rows⟩ :: scanTables hs r := by
  unfold scanTables
  rw [show (c :: rest).length = rest.length + 1 from rfl, scanGo_succ]
  simp only [h1, h2]
  congr 1
  have hr : r.length < (c :: rest).length := matchMainTableAt_lt h2
  simp only [List.length_cons] at hr
  exact scanGo_fuel_eq hs r.length r (Nat.le_refl _) rest.length (by omega)

lemma matchSubTableAt_not_star {c : Char} (hc : c ≠ '*') (l : List Char) :
    matchSubTableAt (c :: l) = none := by
  cases l with
  | nil => rfl
  | cons c2 t =>
    simp only [matchSubTableAt]
    rw [if_neg (fun h => hc h.1)]

lemma matchMainTableAt_not_hash (hs : List (List Char)) {c : Char} (hc : c ≠ '#')
    (l : List Char) : matchMainTableAt hs (c :: l) = none := by
  rcases l with _ | ⟨c2, _ | ⟨c3, _ | ⟨c4, t⟩⟩⟩
  · rfl
  · rfl
  · rfl
  · simp only [matchMainTableAt]
    rw [if_neg (fun h => hc h.1)]

lemma scanTables_skip_block (hs : List (List Char)) (A r : List Char)
    (hA : ∀ c ∈ A, c ≠ '*' ∧ c ≠ '#') :
    scanTables hs (A ++ r) = scanTables hs r := by
  induction A with
  | nil => rw [List.nil_append]
  | cons c t ih =>
    rw [List.cons_append]
    rw [scanTables_cons_skip hs c (t ++ r)
      (matchSubTableAt_not_star (hA c (by simp)).1 _)
      (matchMainTableAt_not_hash hs (hA c (by simp)).2 _)]
    exact ih (fun d hd => hA d (by simp [hd]))

lemma sectionGo_succ (title : List Char) (f : Nat) (c : Char) (rest : List Char) :
    sectionGo title (f + 1) (c :: rest)
      = match trySectionAt title (c :: rest) with
        | some g => some g
        | none => sectionGo title f rest := rfl

lemma sectionCapture_cons_skip (title : List Char) (c : Char) (rest : List Char)
    (h : trySectionAt title (c :: rest) = none) :
    sectionCapture title (c :: rest) = sectionCapture title rest := by
  unfold sectionCapture
  rw [show (c :: rest).length = rest.length + 1 from rfl, sectionGo_succ]
  simp only [h]

lemma trySectionAt_not_hash (title : List Char) {c : Char} (hc : c ≠ '#')
    (l : List Char) : trySectionAt title (c :: l) = none := by
  rcases l with _ | ⟨c2, _ | ⟨c3, _ | ⟨c4, t⟩⟩⟩
  · rfl
  · rfl
  · rfl
  · simp only [trySectionAt]
    rw [if_neg (fun h => hc h.1)]

lemma sectionCapture_skip_block (title : List Char) (A r : List Char)
    (hA : ∀ c ∈ A, c ≠ '#') :
    sectionCapture title (A ++ r) = sectionCapture title r := by
  induction A with
  | nil => rw [List.nil_append]
  | cons c t ih =>
    rw [List.cons_append]
    rw [sectionCapture_cons_skip title c (t ++ r)
      (trySectionAt_not_hash title (hA c (by simp)) _)]
    exact ih (fun d hd => hA d (by simp [hd]))

end Md2Openapi

namespace Md2OpenapiClaims

open Md2Openapi

/-- C1 counterexample: on a request body with an object property `a`
containing an array property `b`, the grandchild sub-table `b 数组元素`
is *not* composed into `b` — the result replaces only the root property
`a` and drops the deeper table, so composition does not work at arbitrary
nesting depth (the claimed depth-first, title-driven composition would
have set `items` of `b`). -/
theorem C1_counterexample :
    parse_request_body_schema docDeep
        = some (Schema.mk (cs "object") none none none none
            (some [(cs "a",
              Schema.mk (cs "object") none none none none
                (some [(cs "b",
                  Schema.mk (cs "array") none (some (cs "ar")) none none none none none)])
                (some [cs "b"]) none)])
            (some [cs "a"]) none)
      ∧ ((parse_request_body_schema docDeep).bind (fun s =>
           (alGet (cs "a") (s.props.getD [])).bind (fun ca =>
             (alGet (cs "b") (ca.props.getD [])).bind Schema.items))) = none := by
  exact ⟨rfl, rfl⟩

/-- C2: the example-based schema inference maps the claim's example as
stated, but a boolean value is inferred as `integer`, not `boolean`:
`isinstance(True, int)` holds in Python, so the integer branch captures
booleans and the later boolean branch of the source is unreachable. -/
theorem C2_bool_inferred_as_integer :
    ((exampleSchemaOf exampleNameCountTags).props.getD []).map
        (fun kv => (kv.1, kv.2.type, kv.2.items.map Schema.type))
      = [(cs "name", cs "string", none), (cs "count", cs "integer", none),
         (cs "tags", cs "array", some (cs "string"))]
    ∧ exampleFieldSchema (.vbool true) = Schema.ofType (cs "integer")
    ∧ ((parse_markdown_file docBoolExample).map (fun op => op.request_body.map (fun rb =>
         match rb.schema with
         | .inline s => (s.props.getD []).map (fun kv => (kv.1, kv.2.type))
         | .ref _ => [])))
      = some (some [(cs "flag", cs "integer")]) := by
  exact ⟨rfl, rfl, rfl⟩

/-- C3: the `'unknown'` version fallback and the hard-coded server-URL
fallback of `build_openapi_spec` never fire: `parse_info_md` always
returns a dict that already contains all four keys (bound to the empty
string when the sidecar is unreadable or a field is blank), so
`dict.get(key, default)` never uses its default.  The run still produces
a document containing the `Error` schema. -/
theorem C3_metadata_fallbacks_dead :
    (build_openapi_spec [] none).info.version = cs ""
    ∧ (build_openapi_spec [] none).serverUrl = cs ""
    ∧ cs "" ≠ cs "unknown"
    ∧ cs "" ≠ default_server_url
    ∧ (build_openapi_spec [] (some (cs "爬取时间: 2024-01-01\n账号: admin\n"))).info.version
        = cs ""
    ∧ (build_openapi_spec [] none).openapi = cs "3.0.0"
    ∧ alGet (cs "Error") (build_openapi_spec [] none).schemas = some errorSchema := by
  refine ⟨rfl, rfl, by decide, by decide, rfl, rfl, rfl⟩

/-- C7: for every non-empty well-formed segment list, the operation id is
the lowercased method followed by the processed segments — `{param}`
segments become the literal `Id`, literal segments get their first letter
capitalized — and the schema name is the operation id followed by
`Response` (responses) or `Request` (request bodies). -/
theorem C7_identifier_generation (segs : List Seg) (method : List Char)
    (hne : segs ≠ []) (hwf : ∀ g ∈ segs, segWf g) :
    generate_operation_id (renderPath segs) method
        = lowerL method ++ (segs.map processSeg).flatten
      ∧ generate_schema_name (renderPath segs) method true
        = (lowerL method ++ (segs.map processSeg).flatten) ++ cs "Response"
      ∧ generate_schema_name (renderPath segs) method false
        = (lowerL method ++ (segs.map processSeg).flatten) ++ cs "Request" := by
  have hslash : ∀ p ∈ segs.map renderSeg, ∀ c ∈ p, c ≠ '/' := by
    intro p hp
    rw [List.mem_map] at hp
    obtain ⟨g, hg, rfl⟩ := hp
    exact renderSeg_slashFree (hwf g hg)
  have hoid : generate_operation_id (renderPath segs) method
      = lowerL method ++ (segs.map processSeg).flatten := by
    unfold generate_operation_id
    rw [stripSlash_renderPath hne hwf,
      pySplit_pyJoin (by simpa using hne) hslash]
    have hfil : (segs.map renderSeg).filter (fun p => decide (p ≠ [])) = segs.map renderSeg := by
      apply List.filter_eq_self.mpr
      intro a ha
      rw [List.mem_map] at ha
      obtain ⟨g, hg, rfl⟩ := ha
      simpa using renderSeg_ne_nil (hwf g hg)
    have hmap : segs.map ((fun p =>
        if p.headD ' ' = '{' ∧ p.getLastD ' ' = '}' then cs "Id" else upperFirst p) ∘ renderSeg)
        = segs.map processSeg := by
      apply List.map_congr_left
      intro g hg
      cases g with
      | lit s =>
        have hwl := hwf _ hg
        simp only [Function.comp_apply, renderSeg, processSeg]
        exact if_neg hwl.2.2
      | param s =>
        simp only [Function.comp_apply, renderSeg, processSeg]
        have hhead : ('{' :: (s ++ ['}'])).headD ' ' = '{' := rfl
        have hlast : ('{' :: (s ++ ['}'])).getLastD ' ' = '}' := by
          have h2 : ('{' :: (s ++ ['}'])).getLast? = some '}' := by
            rw [show '{' :: (s ++ ['}']) = ('{' :: s) ++ ['}'] from by simp]
            exact List.getLast?_concat _
          simp [List.getLastD_eq_getLast?, h2]
        rw [if_pos ⟨hhead, hlast⟩]
    rw [hfil]
    simp only [List.map_map, hmap]
  refine ⟨hoid, ?_, ?_⟩
  · simp [generate_schema_name, hoid]
  · simp [generate_schema_name, hoid]

/-- C7 witness: the spec's concrete example, derived from the theorem. -/
theorem C7_witness :
    generate_operation_id (cs "/bugs/\x7bid\x7d") (cs "DELETE") = cs "deleteBugsId"
      ∧ generate_schema_name (cs "/bugs/\x7bid\x7d") (cs "DELETE") true
          = cs "deleteBugsIdResponse" := by
  have hwf : ∀ g ∈ [Seg.lit (cs "bugs"), Seg.param (cs "id")], segWf g := by
    intro g hg
    simp only [List.mem_cons, List.not_mem_nil, or_false] at hg
    rcases hg with rfl | rfl
    · exact ⟨by decide, by decide, by decide⟩
    · show ∀ c ∈ cs "id", c ≠ '/'
      decide
  have h := C7_identifier_generation [Seg.lit (cs "bugs"), Seg.param (cs "id")]
    (cs "DELETE") (by simp) hwf
  have hp : renderPath [Seg.lit (cs "bugs"), Seg.param (cs "id")] = cs "/bugs/\x7bid\x7d" := by
    decide
  rw [hp] at h
  exact ⟨by rw [h.1]; decide, by rw [h.2.1]; decide⟩

/-- C8: for a description containing a parenthesized, pipe-separated list
of `value free-text` entries with at least two values, the inferred
schema's enum is the list of first tokens, and the enum descriptions are
exactly the per-entry remainder texts when some entry has a non-empty
remainder, absent otherwise. -/
theorem C8_enum_extraction (ptype pname pre post : List Char)
    (entries : List (List Char × List Char))
    (hn : 2 ≤ entries.length)
    (hpre : ∀ c ∈ pre, c ≠ '(')
    (hname : lowerL pname ≠ cs "desc")
    (hent : ∀ e ∈ entries,
      e.1 ≠ [] ∧ (∀ c ∈ e.1, c ≠ ' ' ∧ c ≠ '|' ∧ c ≠ ')' ∧ c ≠ '\n')
        ∧ (∀ c ∈ e.2, c ≠ '|' ∧ c ≠ ')' ∧ c ≠ '\n') ∧ pyStrip e.2 = e.2) :
    (determine_schema_type ptype
        (pre ++ '(' :: (renderEnumBody entries ++ ')' :: post)) pname).enum
        = some (entries.map Prod.fst)
      ∧ (determine_schema_type ptype
          (pre ++ '(' :: (renderEnumBody entries ++ ')' :: post)) pname).enumDescs
        = (if entries.any (fun e => e.2 ≠ []) then some (entries.map Prod.snd) else none) := by
  obtain ⟨e0, e1, erest, rfl⟩ : ∃ a b r, entries = a :: b :: r := by
    cases entries with
    | nil => simp at hn
    | cons a t =>
      cases t with
      | nil => simp at hn
      | cons b r => exact ⟨a, b, r, rfl⟩
  have hbodymem : ∀ c ∈ renderEnumBody (e0 :: e1 :: erest), c ≠ ')' ∧ c ≠ '\n' := by
    intro c hc
    rcases mem_pyJoin hc with rfl | ⟨p, hp, hcp⟩
    · exact ⟨by decide, by decide⟩
    · rw [List.mem_map] at hp
      obtain ⟨e, he, rfl⟩ := hp
      rcases mem_renderEntry hcp with h1 | rfl | h2
      · have := (hent e he).2.1 c h1
        exact ⟨this.2.2.1, this.2.2.2⟩
      · exact ⟨by decide, by decide⟩
      · have := (hent e he).2.2.1 c h2
        exact ⟨this.2.1, this.2.2⟩
  have hbodyne : renderEnumBody (e0 :: e1 :: erest) ≠ [] := by
    apply pyJoin_ne_nil (by simp)
    intro p hp
    rw [List.mem_map] at hp
    obtain ⟨e, he, rfl⟩ := hp
    exact renderEntry_ne_nil (hent e he).1
  obtain ⟨b0, brest, hb⟩ : ∃ b0 brest, renderEnumBody (e0 :: e1 :: erest) = b0 :: brest := by
    cases hx : renderEnumBody (e0 :: e1 :: erest) with
    | nil => exact absurd hx hbodyne
    | cons a t => exact ⟨a, t, rfl⟩
  have hfind : findParenGroup
      (pre ++ '(' :: (renderEnumBody (e0 :: e1 :: erest) ++ ')' :: post))
      = some (renderEnumBody (e0 :: e1 :: erest)) := by
    rw [findParen_skip _ hpre, findParenGroup_cons]
    have ht : tryParenAt ('(' :: (renderEnumBody (e0 :: e1 :: erest) ++ ')' :: post))
        = some (renderEnumBody (e0 :: e1 :: erest)) := by
      rw [hb]
      simp only [tryParenAt, if_pos rfl, List.cons_append]
      rw [if_neg (show ¬ b0 = '\n' from (hbodymem b0 (by rw [hb]; simp)).2)]
      rw [scanClose_append post (fun c hc => hbodymem c (by rw [hb]; simp [hc]))]
      rfl
    rw [ht]
  have hpieces : pySplit '|' (renderEnumBody (e0 :: e1 :: erest))
      = (e0 :: e1 :: erest).map renderEntry := by
    apply pySplit_pyJoin (by simp)
    intro p hp c hc
    rw [List.mem_map] at hp
    obtain ⟨e, he, rfl⟩ := hp
    rcases mem_renderEntry hc with h1 | rfl | h2
    · exact ((hent e he).2.1 c h1).2.1
    · decide
    · exact ((hent e he).2.2.1 c h2).1
  have hvals : ((e0 :: e1 :: erest).map renderEntry).map (fun v => (pySplit ' ' v).headD [])
      = (e0 :: e1 :: erest).map Prod.fst := by
    rw [List.map_map]
    apply List.map_congr_left
    intro e he
    simp only [Function.comp_apply]
    by_cases hd : e.2 = []
    · rw [show renderEntry e = e.1 from by simp [renderEntry, hd]]
      rw [pySplit_sepFree (fun c hc => ((hent e he).2.1 c hc).1)]
      rfl
    · rw [show renderEntry e = e.1 ++ ' ' :: e.2 from by simp [renderEntry, hd]]
      rw [pySplit_append _ (fun c hc => ((hent e he).2.1 c hc).1)]
      rfl
  have hdescs : ((e0 :: e1 :: erest).map renderEntry).map
        (fun v => pyStrip (pyJoin ' ' ((pySplit ' ' v).drop 1)))
      = (e0 :: e1 :: erest).map Prod.snd := by
    rw [List.map_map]
    apply List.map_congr_left
    intro e he
    simp only [Function.comp_apply]
    by_cases hd : e.2 = []
    · rw [show renderEntry e = e.1 from by simp [renderEntry, hd]]
      rw [pySplit_sepFree (fun c hc => ((hent e he).2.1 c hc).1)]
      simp [pyJoin, pyStrip, hd]
    · rw [show renderEntry e = e.1 ++ ' ' :: e.2 from by simp [renderEntry, hd]]
      rw [pySplit_append _ (fun c hc => ((hent e he).2.1 c hc).1)]
      simp only [List.drop_succ_cons, List.drop_zero]
      rw [pyJoin_pySplit]
      exact (hent e he).2.2.2
  have henums : enumsFromDesc (pre ++ '(' :: (renderEnumBody (e0 :: e1 :: erest) ++ ')' :: post))
      = (some ((e0 :: e1 :: erest).map Prod.fst),
         if (((e0 :: e1 :: erest).map Prod.snd).any (fun d => decide (d ≠ []))) = true
         then some ((e0 :: e1 :: erest).map Prod.snd) else none) := by
    unfold enumsFromDesc
    rw [hfind]
    simp only [hpieces, hvals, hdescs]
    rw [if_pos (by simp [Nat.lt_iff_add_one_le])]
  have hcond : ¬((pname ≠ [] ∧ lowerL pname = cs "desc")) := fun hcon => hname hcon.2
  have hany : (((e0 :: e1 :: erest).map Prod.snd).any (fun d => decide (d ≠ [])))
      = ((e0 :: e1 :: erest).any (fun e => decide (e.2 ≠ []))) := by
    induction (e0 :: e1 :: erest) with
    | nil => rfl
    | cons a t ih =>
      simp only [List.map_cons, List.any_cons]
      rw [ih]
  unfold determine_schema_type
  simp only [if_neg hcond]
  refine ⟨?_, ?_⟩
  · show (enumsFromDesc
        (pre ++ '(' :: (renderEnumBody (e0 :: e1 :: erest) ++ ')' :: post))).1 = _
    rw [henums]
  · show (enumsFromDesc
        (pre ++ '(' :: (renderEnumBody (e0 :: e1 :: erest) ++ ')' :: post))).2 = _
    rw [henums]
    rw [show (((e0 :: e1 :: erest).map Prod.snd).any (fun d => decide (d ≠ []))) = _ from hany]

/-- C8 witness: the spec's concrete enum example, via the theorem. -/
theorem C8_witness :
    (determine_schema_type (cs "string") (cs "状态(open 开启|closed 关闭)") []).enum
        = some [cs "open", cs "closed"]
      ∧ (determine_schema_type (cs "string") (cs "状态(open 开启|closed 关闭)") []).enumDescs
        = some [cs "开启", cs "关闭"] := by
  have h := C8_enum_extraction (cs "string") [] (cs "状态") []
    [(cs "open", cs "开启"), (cs "closed", cs "关闭")]
    (by decide) (by decide) (by decide) (by decide)
  have hdoc : cs "状态" ++ '(' ::
      (renderEnumBody [(cs "open", cs "开启"), (cs "closed", cs "关闭")] ++ ')' :: ([] : List Char))
      = cs "状态(open 开启|closed 关闭)" := by decide
  rw [hdoc] at h
  exact ⟨h.1.trans (by decide), h.2.trans (by decide)⟩

/-- C6 counterexample: a document whose own `请求头` table lists two Token
rows produces an operation with *two* Token header parameters — no
synthetic one is appended, but nothing deduplicates the two that the
document supplied, so "every Operation ends with at most one Token header
Parameter" is false. -/
theorem C6_counterexample :
    ((parse_markdown_file docTwoToken).map (fun op => tokenHeaderCount op.parameters))
      = some 2 := rfl

/-- C6 amended: exactly one synthetic Token header parameter is appended
when none is present and none otherwise; consequently every extracted
operation has at least one Token header parameter, and exactly one
whenever the document's own sections contributed at most one. -/
theorem C6_amended :
    (∀ content : List Char, ∀ op : Operation,
        parse_markdown_file content = some op → 1 ≤ tokenHeaderCount op.parameters)
    ∧ ∀ ps : List Param,
        (hasTokenHeader ps = false → appendToken ps = ps ++ [tokenParam])
        ∧ (hasTokenHeader ps = true → appendToken ps = ps)
        ∧ 1 ≤ tokenHeaderCount (appendToken ps)
        ∧ (tokenHeaderCount ps ≤ 1 → tokenHeaderCount (appendToken ps) = 1) := by
  have htokOne : tokenHeaderCount [tokenParam] = 1 := by decide
  have hcount : ∀ ps : List Param, hasTokenHeader ps = true → 1 ≤ tokenHeaderCount ps := by
    intro ps h
    unfold hasTokenHeader at h
    rw [List.any_eq_true] at h
    obtain ⟨p, hp, hpred⟩ := h
    have hmem : p ∈ ps.filter
        (fun p => decide (lowerL p.name = cs "token" ∧ p.loc = cs "header")) :=
      List.mem_filter.mpr ⟨hp, hpred⟩
    unfold tokenHeaderCount
    exact List.length_pos.mpr (List.ne_nil_of_mem hmem)
  have hmain : ∀ ps : List Param,
      (hasTokenHeader ps = false → appendToken ps = ps ++ [tokenParam])
      ∧ (hasTokenHeader ps = true → appendToken ps = ps)
      ∧ 1 ≤ tokenHeaderCount (appendToken ps)
      ∧ (tokenHeaderCount ps ≤ 1 → tokenHeaderCount (appendToken ps) = 1) := by
    intro ps
    by_cases h : hasTokenHeader ps = true
    · have happ : appendToken ps = ps := by simp [appendToken, h]
      refine ⟨?_, fun _ => happ, ?_, ?_⟩
      · intro hf
        rw [h] at hf
        cases hf
      · rw [happ]
        exact hcount ps h
      · intro hle
        rw [happ]
        exact Nat.le_antisymm hle (hcount ps h)
    · have hf : hasTokenHeader ps = false := by simpa using h
      have happ : appendToken ps = ps ++ [tokenParam] := by simp [appendToken, hf]
      have hfilnil : ps.filter
          (fun p => decide (lowerL p.name = cs "token" ∧ p.loc = cs "header")) = [] := by
        rw [List.filter_eq_nil_iff]
        intro p hp
        unfold hasTokenHeader at hf
        rw [List.any_eq_false] at hf
        exact hf p hp
      have hc1 : tokenHeaderCount (appendToken ps) = 1 := by
        rw [happ]
        unfold tokenHeaderCount
        rw [List.filter_append, hfilnil]
        decide
      refine ⟨fun _ => happ, ?_, by rw [hc1], fun _ => hc1⟩
      intro ht
      rw [ht] at hf
      cases hf
  refine ⟨?_, hmain⟩
  intro content op h
  cases hT : findTitle content with
  | none => simp [parse_markdown_file, hT] at h
  | some mp =>
    obtain ⟨mRaw, pRaw⟩ := mp
    simp only [parse_markdown_file, hT, Option.some.injEq] at h
    subst h
    exact (hmain _).2.2.1

/-- C6 amended witness: the theorem applied at concrete inputs. -/
theorem C6_amended_witness :
    appendToken [] = [tokenParam]
      ∧ tokenHeaderCount (appendToken []) = 1
      ∧ 1 ≤ ((parse_markdown_file docTwoToken).map
          (fun op => tokenHeaderCount op.parameters)).getD 0 := by
  obtain ⟨op2, hop⟩ := Option.isSome_iff_exists.mp
    (show (parse_markdown_file docTwoToken).isSome = true from rfl)
  have h1 := (C6_amended.2 []).1 (by decide)
  have h2 := (C6_amended.2 []).2.2.2 (by decide)
  have h3 := C6_amended.1 docTwoToken op2 hop
  refine ⟨h1, h2, ?_⟩
  rw [hop]
  exact h3

/-- C1 amended: sub-table composition is title-driven but only one level
deep.  A table whose title has fewer than two words, or whose first word
names no root-level property, is dropped without effect; a table titled
`name 对象` with `name` a root property replaces that property by the
table's object schema; a table titled `name 数组元素` sets the property's
`items` to the table's object schema. -/
theorem C1_amended :
    (∀ (pts : List (List Char × List Row)) (t : List Char × List Row),
        t.1 ≠ cs "root" →
        ((pySplit ' ' t.1).length < 2 ∨
          ((rootPropsOf pts).any (fun kv => kv.1 = (pySplit ' ' t.1).headD [])) = false) →
        buildSchemaFromTables (pts ++ [t]) = buildSchemaFromTables pts)
    ∧ (∀ (pts : List (List Char × List Row)) (name : List Char) (rows : List Row),
        (∀ c ∈ name, c ≠ ' ') →
        ((rootPropsOf pts).any (fun kv => kv.1 = name)) = true →
        alGet name (((buildSchemaFromTables
            (pts ++ [(name ++ ' ' :: cs "对象", rows)])).props).getD [])
          = some (childSchemaOf rows))
    ∧ (∀ (pts : List (List Char × List Row)) (name : List Char) (rows : List Row),
        (∀ c ∈ name, c ≠ ' ') →
        ((rootPropsOf pts).any (fun kv => kv.1 = name)) = true →
        ∃ cur, alGet name (((buildSchemaFromTables pts).props).getD []) = some cur
          ∧ alGet name (((buildSchemaFromTables
              (pts ++ [(name ++ ' ' :: cs "数组元素", rows)])).props).getD [])
            = some (cur.setItems (childSchemaOf rows))) := by
  refine ⟨?_, ?_, ?_⟩
  · intro pts t hroot hcond
    unfold buildSchemaFromTables
    rw [alGet_append_single_ne pts hroot]
    obtain ⟨rp, hrp⟩ : ∃ rp, (match alGet (cs "root") pts with
        | some rows => foldProps rows
        | none => (([] : List (List Char × Schema)), ([] : List (List Char)))) = rp :=
      ⟨_, rfl⟩
    rw [hrp]
    dsimp only
    rw [List.foldl_append, List.foldl_cons, List.foldl_nil]
    have hrpv : rootPropsOf pts = rp.1 := by
      unfold rootPropsOf
      rw [hrp]
    have hmerge : ∀ (P : List (List Char × Schema)),
        ((pySplit ' ' t.1).length < 2 ∨ alGet ((pySplit ' ' t.1).headD []) P = none) →
        mergeSub P t.1 t.2 = P := by
      intro P hc
      unfold mergeSub
      rw [if_neg hroot]
      dsimp only
      rcases hc with hlen | hnone
      · rw [if_pos hlen]
      · by_cases hlen : (pySplit ' ' t.1).length < 2
        · rw [if_pos hlen]
        · rw [if_neg hlen]
          simp only [hnone]
    have hnoop : mergeSub (pts.foldl (fun acc t => mergeSub acc t.1 t.2) rp.1) t.1 t.2
        = pts.foldl (fun acc t => mergeSub acc t.1 t.2) rp.1 := by
      apply hmerge
      rcases hcond with hlen | hany
      · exact Or.inl hlen
      · refine Or.inr (anyKey_false_alGet_none ?_)
        rw [mergeFold_keys, ← hrpv]
        exact hany
    rw [hnoop]
  · intro pts name rows hsp hmem
    have hti : (name ++ ' ' :: cs "对象") ≠ cs "root" := notRoot_of_space
    unfold buildSchemaFromTables
    rw [alGet_append_single_ne pts hti]
    obtain ⟨rp, hrp⟩ : ∃ rp, (match alGet (cs "root") pts with
        | some rows => foldProps rows
        | none => (([] : List (List Char × Schema)), ([] : List (List Char)))) = rp :=
      ⟨_, rfl⟩
    rw [hrp]
    dsimp only
    rw [List.foldl_append, List.foldl_cons, List.foldl_nil]
    have hrpv : rootPropsOf pts = rp.1 := by
      unfold rootPropsOf
      rw [hrp]
    show alGet name (mergeSub (pts.foldl (fun acc t => mergeSub acc t.1 t.2) rp.1)
        (name ++ ' ' :: cs "对象") rows) = some (childSchemaOf rows)
    have hsplit : pySplit ' ' (name ++ ' ' :: cs "对象") = [name, cs "对象"] := by
      rw [pySplit_append _ hsp, pySplit_sepFree (by decide)]
    have hmerge : ∀ (P : List (List Char × Schema)) (cur : Schema),
        alGet name P = some cur →
        mergeSub P (name ++ ' ' :: cs "对象") rows
          = alUpsert name (childSchemaOf rows) P := by
      intro P cur hcur
      unfold mergeSub
      rw [if_neg hti]
      dsimp only
      rw [hsplit]
      rw [if_neg (by simp)]
      simp only [List.headD_cons]
      simp only [hcur]
      rw [show List.drop 1 [name, cs "对象"] = [cs "对象"] from rfl]
      rw [if_neg (by decide)]
    obtain ⟨cur, hcur⟩ := anyKey_true_alGet_some
      (l := pts.foldl (fun acc t => mergeSub acc t.1 t.2) rp.1)
      (by rw [mergeFold_keys, ← hrpv]; exact hmem)
    rw [hmerge _ cur hcur]
    exact alGet_alUpsert_self name _ _
  · intro pts name rows hsp hmem
    have hti : (name ++ ' ' :: cs "数组元素") ≠ cs "root" := notRoot_of_space
    obtain ⟨rp, hrp⟩ : ∃ rp, (match alGet (cs "root") pts with
        | some rows => foldProps rows
        | none => (([] : List (List Char × Schema)), ([] : List (List Char)))) = rp :=
      ⟨_, rfl⟩
    have hrpv : rootPropsOf pts = rp.1 := by
      unfold rootPropsOf
      rw [hrp]
    obtain ⟨cur, hcur⟩ := anyKey_true_alGet_some
      (l := pts.foldl (fun acc t => mergeSub acc t.1 t.2) rp.1)
      (by rw [mergeFold_keys, ← hrpv]; exact hmem)
    refine ⟨cur, ?_, ?_⟩
    · unfold buildSchemaFromTables
      rw [hrp]
      exact hcur
    · unfold buildSchemaFromTables
      rw [alGet_append_single_ne pts hti]
      rw [hrp]
      dsimp only
      rw [List.foldl_append, List.foldl_cons, List.foldl_nil]
      show alGet name (mergeSub (pts.foldl (fun acc t => mergeSub acc t.1 t.2) rp.1)
          (name ++ ' ' :: cs "数组元素") rows) = some (cur.setItems (childSchemaOf rows))
      have hsplit : pySplit ' ' (name ++ ' ' :: cs "数组元素") = [name, cs "数组元素"] := by
        rw [pySplit_append _ hsp, pySplit_sepFree (by decide)]
      have hmerge : ∀ (P : List (List Char × Schema)) (c : Schema),
          alGet name P = some c →
          mergeSub P (name ++ ' ' :: cs "数组元素") rows
            = alUpsert name (c.setItems (childSchemaOf rows)) P := by
        intro P c hc
        unfold mergeSub
        rw [if_neg hti]
        dsimp only
        rw [hsplit]
        rw [if_neg (by simp)]
        simp only [List.headD_cons]
        simp only [hc]
        rw [show List.drop 1 [name, cs "数组元素"] = [cs "数组元素"] from rfl]
        rw [if_pos (by decide)]
      rw [hmerge _ cur hcur]
      exact alGet_alUpsert_self name _ _

/-- C1 amended witness: the theorem applied at concrete tables. -/
theorem C1_amended_witness :
    buildSchemaFromTables [(cs "root", [⟨cs "a", cs "object", true, cs "o"⟩]),
        (cs "b 对象", [⟨cs "c", cs "string", false, cs "i"⟩])]
      = buildSchemaFromTables [(cs "root", [⟨cs "a", cs "object", true, cs "o"⟩])]
    ∧ alGet (cs "a") ((buildSchemaFromTables [(cs "root", [⟨cs "a", cs "object", true, cs "o"⟩]),
        (cs "a 对象", [⟨cs "b", cs "string", false, cs "i"⟩])]).props.getD [])
      = some (childSchemaOf [⟨cs "b", cs "string", false, cs "i"⟩]) := by
  constructor
  · exact C1_amended.1 [(cs "root", [⟨cs "a", cs "object", true, cs "o"⟩])]
      (cs "b 对象", [⟨cs "c", cs "string", false, cs "i"⟩]) (by decide) (Or.inr (by decide))
  · exact C1_amended.2.1 [(cs "root", [⟨cs "a", cs "object", true, cs "o"⟩])]
      (cs "a") [⟨cs "b", cs "string", false, cs "i"⟩] (by decide) (by decide)

/-- C5: every object schema produced from tables — request-body schemas,
response schemas, schemas built from the request-parameters section, and
all nested child schemas below them (the `requiredOK` predicate descends
into every property and items schema) — has `required` either absent or a
non-empty list of keys of its `properties`. -/
theorem C5_required_invariant :
    (∀ content : List Char, (parse_request_body_schema content).all requiredOK = true)
    ∧ (∀ content : List Char, (parse_response_schema content).all requiredOK = true)
    ∧ (∀ sect : List Char, requiredOK (bodyFromParamsTable sect).2 = true) := by
  refine ⟨?_, ?_, bodyFromParamsTable_ok⟩
  · intro content
    unfold parse_request_body_schema
    cases h1 : sectionCapture (cs "请求体") content with
    | none => rfl
    | some sect =>
      cases h2 : scanTables [cs "请求体"] content with
      | nil => rfl
      | cons t ts => exact buildSchemaFromTables_ok _
  · intro content
    unfold parse_response_schema
    cases h1 : firstSectionOf respTitles content with
    | none => rfl
    | some sect =>
      cases h2 : scanTables respTitles content with
      | nil => rfl
      | cons t ts => exact buildSchemaFromTables_ok _

/-- C9: every successfully extracted operation has exactly the responses
`200, 400, 401, 500`, with 200 carrying the inferred response schema (or
`{type: object}` when absent) and the rest referencing the shared `Error`
schema, and the assembled document's schema components always contain the
fixed `Error` schema. -/
theorem C9_responses_and_error_schema :
    (∀ content : List Char, ∀ op : Operation, parse_markdown_file content = some op →
        op.responses.map Prod.fst = [cs "200", cs "400", cs "401", cs "500"]
        ∧ alGet (cs "200") op.responses
            = some ⟨cs "成功响应",
                .inline (op.response_schema.getD (Schema.ofType (cs "object")))⟩
        ∧ alGet (cs "400") op.responses = some ⟨cs "请求错误", .ref errorRefName⟩
        ∧ alGet (cs "401") op.responses = some ⟨cs "未授权", .ref errorRefName⟩
        ∧ alGet (cs "500") op.responses = some ⟨cs "服务器错误", .ref errorRefName⟩)
    ∧ (∀ apis : List (Option Operation),
        alGet (cs "Error") (extract_schemas_from_apis apis).1 = some errorSchema)
    ∧ (∀ apis : List (Option Operation), ∀ infoFile : Option (List Char),
        alGet (cs "Error") (build_openapi_spec apis infoFile).schemas = some errorSchema) := by
  have hname : ∀ (p m : List Char) (b : Bool), generate_schema_name p m b ≠ cs "Error" := by
    intro p m b h
    have h8 : (cs "Response").length = 8 := rfl
    have h7 : (cs "Request").length = 7 := rfl
    have h5 : (cs "Error").length = 5 := rfl
    cases b with
    | true =>
      have := congrArg List.length h
      rw [show generate_schema_name p m true
          = generate_operation_id p m ++ cs "Response" from rfl,
        List.length_append, h8, h5] at this
      omega
    | false =>
      have := congrArg List.length h
      rw [show generate_schema_name p m false
          = generate_operation_id p m ++ cs "Request" from rfl,
        List.length_append, h7, h5] at this
      omega
  have hupne : ∀ (k : List Char) (v : Schema) (l : List (List Char × Schema)),
      k ≠ cs "Error" → alGet (cs "Error") (alUpsert k v l) = alGet (cs "Error") l := by
    intro k v l hk
    induction l with
    | nil => simp [alUpsert, alGet, hk]
    | cons kv rest ih =>
      by_cases hkv : kv.1 = k
      · simp [alUpsert, hkv, alGet, hk]
      · simp only [alUpsert, if_neg hkv, alGet]
        rw [ih]
  have hfold : ∀ (apis : List (Option Operation))
      (acc : List (List Char × Schema) × List (Option Operation)),
      alGet (cs "Error") acc.1 = some errorSchema →
      alGet (cs "Error") (apis.foldl
        (fun acc oapi =>
          match oapi with
          | none => (acc.1, acc.2 ++ [none])
          | some api =>
            let s1api1 :=
              match api.response_schema with
              | some rs =>
                let nm := generate_schema_name api.path api.method true
                (alUpsert nm rs acc.1, rewrite200 api nm)
              | none => (acc.1, api)
            let s2api2 :=
              let api1 := s1api1.2
              match api1.request_body with
              | some rb =>
                match rb.schema with
                | .inline s =>
                  let nm := generate_schema_name api.path api.method false
                  let rb2 := RequestBody.mk rb.required
                    (SchemaRef.ref (cs "#/components/schemas/" ++ nm)) rb.exampleJson
                  (alUpsert nm s s1api1.1, { api1 with request_body := some rb2 })
                | .ref _ => s1api1
              | none => s1api1
            (s2api2.1, acc.2 ++ [some s2api2.2])) acc).1 = some errorSchema := by
    intro apis
    induction apis with
    | nil => intro acc h; exact h
    | cons oapi rest ih =>
      intro acc h
      rw [List.foldl_cons]
      apply ih
      cases oapi with
      | none => exact h
      | some api =>
        cases hrs : api.response_schema with
        | none =>
          cases hrb : api.request_body with
          | none => simpa [hrs, hrb] using h
          | some rb =>
            cases hsch : rb.schema with
            | inline s =>
              simp only [hrs, hrb, hsch]
              rw [hupne _ _ _ (hname _ _ _)]
              exact h
            | ref r => simpa [hrs, hrb, hsch] using h
        | some rs =>
          cases hrb : (rewrite200 api (generate_schema_name api.path api.method true)).request_body with
          | none =>
            simp only [hrs, hrb]
            rw [hupne _ _ _ (hname _ _ _)]
            exact h
          | some rb =>
            cases hsch : rb.schema with
            | inline s =>
              simp only [hrs, hrb, hsch]
              rw [hupne _ _ _ (hname _ _ _), hupne _ _ _ (hname _ _ _)]
              exact h
            | ref r =>
              simp only [hrs, hrb, hsch]
              rw [hupne _ _ _ (hname _ _ _)]
              exact h
  have part2 : ∀ apis : List (Option Operation),
      alGet (cs "Error") (extract_schemas_from_apis apis).1 = some errorSchema := by
    intro apis
    exact hfold apis ([(cs "Error", errorSchema)], []) (by rw [alGet, if_pos rfl])
  refine ⟨?_, part2, ?_⟩
  · intro content op h
    cases hT : findTitle content with
    | none => simp [parse_markdown_file, hT] at h
    | some mp =>
      obtain ⟨mRaw, pRaw⟩ := mp
      simp only [parse_markdown_file, hT, Option.some.injEq] at h
      subst h
      exact ⟨rfl, rfl, rfl, rfl, rfl⟩
  · intro apis infoFile
    exact part2 apis

/-- C9 witness: the theorem applied at a concrete document and list. -/
theorem C9_witness :
    ((parse_markdown_file docTwoToken).map (fun op => op.responses.map Prod.fst)).getD []
        = [cs "200", cs "400", cs "401", cs "500"]
      ∧ alGet (cs "Error") (extract_schemas_from_apis []).1 = some errorSchema := by
  obtain ⟨op2, hop⟩ := Option.isSome_iff_exists.mp
    (show (parse_markdown_file docTwoToken).isSome = true from rfl)
  have h := (C9_responses_and_error_schema.1 docTwoToken op2 hop).1
  refine ⟨?_, C9_responses_and_error_schema.2.1 []⟩
  rw [hop]
  exact h

/-- C4: whenever the title-line search succeeds, extraction succeeds, the
operation's path is the stripped raw path with `:param` segments normalized
to `\x7bparam\x7d` form and trailing colons removed, and its path parameters
are exactly one synthesized required string parameter per `\x7bname\x7d`
placeholder of the normalized path; the title search recognizes every
`### METHOD PATH` line; for paths of the form `/a/:x/b` the normalized
path is `/a/\x7bx\x7d/b` with `x` the only placeholder; with no title line,
extraction returns null. -/
theorem C4_title_and_path_params :
    (∀ content m p : List Char, findTitle content = some (m, p) →
        ∃ op, parse_markdown_file content = some op
          ∧ op.path = rstripColon (normalizeColons (pyStrip p))
          ∧ op.method = lowerL m
          ∧ op.parameters.filter (fun q => q.loc = cs "path")
              = (findBraceParams op.path).map mkPathParam)
    ∧ (∀ method P tail : List Char,
        method ≠ [] → (∀ c ∈ method, isWordChar c = true) →
        P ≠ [] → isWs (P.headD 'a') = false → (∀ c ∈ P, c ≠ '\n') →
        findTitle (cs "### " ++ (method ++ ' ' :: (P ++ '\n' :: tail)))
          = some (method, P))
    ∧ (∀ a x b : List Char,
        (∀ c ∈ a, c ≠ ':' ∧ c ≠ '\x7b' ∧ c ≠ '\x7d' ∧ isWs c = false) →
        x ≠ [] →
        (∀ c ∈ x, c ≠ '/' ∧ c ≠ '\x7b' ∧ c ≠ '\x7d' ∧ isWs c = false) →
        b ≠ [] →
        (∀ c ∈ b, c ≠ ':' ∧ c ≠ '\x7b' ∧ c ≠ '\x7d' ∧ isWs c = false) →
        rstripColon (normalizeColons
            (pyStrip ('/' :: (a ++ '/' :: ':' :: (x ++ '/' :: b)))))
            = '/' :: (a ++ '/' :: '{' :: (x ++ '}' :: '/' :: b))
          ∧ findBraceParams ('/' :: (a ++ '/' :: '{' :: (x ++ '}' :: '/' :: b))) = [x])
    ∧ (∀ content : List Char, findTitle content = none →
        parse_markdown_file content = none) := by
  refine ⟨?_, ?_, ?_, ?_⟩
  · intro content m p h
    simp only [parse_markdown_file, h]
    refine ⟨_, rfl, rfl, rfl, ?_⟩
    dsimp only
    refine filter_path_appendToken _ _ _ ?_ ?_ ?_
    · intro q hq
      rw [List.mem_map] at hq
      obtain ⟨n, _, hn⟩ := hq
      rw [← hn]
      rfl
    · intro q hq
      rw [headerSectionParams_loc content q hq]
      decide
    · intro q hq
      by_cases hco : (reqBodyBranchA content).isSome = true
      · rw [if_pos hco] at hq
        dsimp only at hq
        exact absurd hq (by simp)
      · rw [if_neg hco] at hq
        cases hrs : reqParamsSection content with
        | none =>
          simp only [hrs] at hq
          try dsimp only at hq
          rw [headerParamSection_loc content q hq]
          decide
        | some sect =>
          simp only [hrs] at hq
          by_cases hlen : 2 ≤ (tableLines sect).length
          · rw [if_pos hlen] at hq
            by_cases hget : lowerL m = cs "get"
            · rw [if_pos hget] at hq
              dsimp only at hq
              rcases List.mem_append.mp hq with hmem | hmem
              · rw [headerParamSection_loc content q hmem]
                decide
              · rw [queryParamsOf_loc sect q hmem]
                decide
            · rw [if_neg hget] at hq
              by_cases hpost : lowerL m = cs "post" ∨ lowerL m = cs "put"
                  ∨ lowerL m = cs "patch"
              · rw [if_pos hpost] at hq
                dsimp only at hq
                rcases List.mem_append.mp hq with hmem | hmem
                · rw [headerParamSection_loc content q hmem]
                  decide
                · rw [bodyFromParamsTable_loc sect q hmem]
                  decide
              · rw [if_neg hpost] at hq
                dsimp only at hq
                rw [headerParamSection_loc content q hq]
                decide
          · rw [if_neg hlen] at hq
            dsimp only at hq
            rw [headerParamSection_loc content q hq]
            decide
  · intro method P tail hm hmw hpn hp0 hnl
    exact findTitle_of_line method P tail hm hmw hpn hp0 hnl
  · intro a x b ha hx hxs hb hbs
    have hbcons : ∃ b0 b', b = b0 :: b' := by
      cases b with
      | nil => exact absurd rfl hb
      | cons c t => exact ⟨c, t, rfl⟩
    obtain ⟨b0, b', rfl⟩ := hbcons
    have hlastP : ∀ c : Char,
        ('/' :: (a ++ '/' :: ':' :: (x ++ '/' :: (b0 :: b')))).getLast? = some c →
        c ∈ b0 :: b' := by
      intro c hc
      rw [show '/' :: (a ++ '/' :: ':' :: (x ++ '/' :: (b0 :: b')))
          = ('/' :: (a ++ '/' :: ':' :: (x ++ ['/']))) ++ (b0 :: b') from by
        simp [List.cons_append, List.append_assoc]] at hc
      rw [List.getLast?_append_of_ne_nil _ (List.cons_ne_nil b0 b')] at hc
      exact mem_of_getLast_some hc
    have hstrip : pyStrip ('/' :: (a ++ '/' :: ':' :: (x ++ '/' :: (b0 :: b'))))
        = '/' :: (a ++ '/' :: ':' :: (x ++ '/' :: (b0 :: b'))) := by
      refine pyStrip_eq_self ?_ ?_
      · intro c hc
        rw [List.head?_cons] at hc
        injection hc with hc
        subst hc
        decide
      · intro c hc
        exact (hbs c (hlastP c hc)).2.2.2
    rw [hstrip]
    rw [normalizeColons_family a x (b0 :: b')
      (fun c hc => (ha c hc).1) hx (fun c hc => (hxs c hc).1)
      (fun c hc => (hbs c hc).1)]
    have hlastQ : ∀ c : Char,
        ('/' :: (a ++ '/' :: '{' :: (x ++ '}' :: '/' :: (b0 :: b')))).getLast? = some c →
        c ∈ b0 :: b' := by
      intro c hc
      rw [show '/' :: (a ++ '/' :: '{' :: (x ++ '}' :: '/' :: (b0 :: b')))
          = ('/' :: (a ++ '/' :: '{' :: (x ++ ['}', '/']))) ++ (b0 :: b') from by
        simp [List.cons_append, List.append_assoc]] at hc
      rw [List.getLast?_append_of_ne_nil _ (List.cons_ne_nil b0 b')] at hc
      exact mem_of_getLast_some hc
    refine ⟨?_, ?_⟩
    · refine rstripColon_eq_self ?_
      intro c hc
      exact (hbs c (hlastQ c hc)).1
    · exact findBraceParams_family a x (b0 :: b')
        (fun c hc => (ha c hc).2.1) hx
        (fun c hc => ⟨(hxs c hc).2.1, (hxs c hc).2.2.1⟩)
        (fun c hc => (hbs c hc).2.1)
  · intro content h
    simp only [parse_markdown_file, h]

/-- C4 witness: the theorem applied at a concrete document, a concrete
title line, concrete path segments, and a title-less document. -/
theorem C4_witness :
    (∃ op, parse_markdown_file (cs "### DELETE /bugs/:id\n\n删除\n\n") = some op
        ∧ op.path = rstripColon (normalizeColons (pyStrip (cs "/bugs/:id")))
        ∧ op.method = lowerL (cs "DELETE")
        ∧ op.parameters.filter (fun q => q.loc = cs "path")
            = (findBraceParams op.path).map mkPathParam)
    ∧ findTitle (cs "### " ++ (cs "GET" ++ ' ' :: (cs "/a/:x/b" ++ '\n' :: cs "rest")))
        = some (cs "GET", cs "/a/:x/b")
    ∧ (rstripColon (normalizeColons
          (pyStrip ('/' :: (cs "a" ++ '/' :: ':' :: (cs "x" ++ '/' :: cs "b")))))
          = '/' :: (cs "a" ++ '/' :: '{' :: (cs "x" ++ '}' :: '/' :: cs "b"))
        ∧ findBraceParams ('/' :: (cs "a" ++ '/' :: '{' :: (cs "x" ++ '}' :: '/' :: cs "b")))
          = [cs "x"])
    ∧ parse_markdown_file (cs "no title here") = none := by
  refine ⟨?_, ?_, ?_, ?_⟩
  · exact C4_title_and_path_params.1 (cs "### DELETE /bugs/:id\n\n删除\n\n")
      (cs "DELETE") (cs "/bugs/:id") (by decide)
  · exact C4_title_and_path_params.2.1 (cs "GET") (cs "/a/:x/b") (cs "rest")
      (by decide) (by decide) (by decide) (by decide) (by decide)
  · exact C4_title_and_path_params.2.2.1 (cs "a") (cs "x") (cs "b")
      (by decide) (by decide) (by decide) (by decide) (by decide)
  · exact C4_title_and_path_params.2.2.2 (cs "no title here") (by decide)

/-- C10: the sub-table scan ranges over the whole document.  For every
filler length `n`, the request-body schema of `docC10req n` picks up the
`a 对象` sub-table located after the response-parameters section, and the
response schema of `docC10resp n` picks up the `r 对象` sub-table located
inside the request-body region — in both directions the titled sub-table
is merged wherever it sits in the document. -/
theorem C10_document_wide_scan :
    ∀ n : Nat,
      parse_request_body_schema (docC10req n) = some c10reqExpected
      ∧ parse_response_schema (docC10resp n) = some c10respExpected := by
  intro n
  constructor
  · obtain ⟨g, hg⟩ : ∃ g, sectionCapture (cs "请求体") (docC10req n) = some g := ⟨_, rfl⟩
    have hrest : scanTables [cs "请求体"] ((c10reqR1 ++ List.replicate n 'x') ++ c10reqSuf)
        = [⟨cs "a 对象", [cs "| b | string | 否 | i |"]⟩] := by
      rw [show (c10reqR1 ++ List.replicate n 'x') ++ c10reqSuf
          = '\n' :: '#' :: '#' :: '#' :: '#' ::
            ((c10reqMid ++ List.replicate n 'x') ++ c10reqSuf) from rfl]
      refine Eq.trans (scanTables_cons_skip _ _ _ ?_ ?_) ?_
      · rfl
      · rfl
      refine Eq.trans (scanTables_cons_skip _ _ _ ?_ ?_) ?_
      · rfl
      · rfl
      refine Eq.trans (scanTables_cons_skip _ _ _ ?_ ?_) ?_
      · rfl
      · rfl
      refine Eq.trans (scanTables_cons_skip _ _ _ ?_ ?_) ?_
      · rfl
      · rfl
      refine Eq.trans (scanTables_cons_skip _ _ _ ?_ ?_) ?_
      · rfl
      · rfl
      rw [List.append_assoc]
      refine Eq.trans (scanTables_skip_block _ c10reqMid _ (by decide)) ?_
      refine Eq.trans (scanTables_skip_block _ (List.replicate n 'x') _ ?_) ?_
      · intro c hc
        rw [List.eq_of_mem_replicate hc]
        exact ⟨by decide, by decide⟩
      rfl
    have hsc : scanTables [cs "请求体"] (docC10req n)
        = [⟨cs "root", [cs "| a | object | 是 | o |"]⟩,
           ⟨cs "a 对象", [cs "| b | string | 否 | i |"]⟩] := by
      rw [show docC10req n
          = '#' :: ((c10reqPre1 ++ List.replicate n 'x') ++ c10reqSuf) from rfl]
      rw [scanTables_main [cs "请求体"] '#' ((c10reqPre1 ++ List.replicate n 'x') ++ c10reqSuf)
          [cs "| a | object | 是 | o |"] ((c10reqR1 ++ List.replicate n 'x') ++ c10reqSuf)
          rfl rfl]
      rw [hrest]
    unfold parse_request_body_schema
    rw [hg, hsc]
    rfl
  · obtain ⟨g2, hg2⟩ : ∃ g, sectionCapture (cs "响应参数") c10respSuf = some g := ⟨_, rfl⟩
    have hsec : sectionCapture (cs "响应参数") (docC10resp n) = some g2 := by
      rw [show docC10resp n
          = '#' :: '#' :: '#' :: '#' ::
            ((c10respMid1 ++ List.replicate n 'x') ++ c10respSuf) from rfl]
      refine Eq.trans (sectionCapture_cons_skip _ _ _ ?_) ?_
      · rfl
      refine Eq.trans (sectionCapture_cons_skip _ _ _ ?_) ?_
      · rfl
      refine Eq.trans (sectionCapture_cons_skip _ _ _ ?_) ?_
      · rfl
      refine Eq.trans (sectionCapture_cons_skip _ _ _ ?_) ?_
      · rfl
      rw [List.append_assoc]
      refine Eq.trans (sectionCapture_skip_block _ c10respMid1 _ (by decide)) ?_
      refine Eq.trans (sectionCapture_skip_block _ (List.replicate n 'x') _ ?_) ?_
      · intro c hc
        rw [List.eq_of_mem_replicate hc]
        decide
      exact hg2
    have hrest2 : scanTables respTitles ((cs "\nx" ++ List.replicate n 'x') ++ c10respSuf)
        = [⟨cs "root", [cs "| r | object | 是 | o |"]⟩] := by
      rw [List.append_assoc]
      refine Eq.trans (scanTables_skip_block _ (cs "\nx") _ (by decide)) ?_
      refine Eq.trans (scanTables_skip_block _ (List.replicate n 'x') _ ?_) ?_
      · intro c hc
        rw [List.eq_of_mem_replicate hc]
        exact ⟨by decide, by decide⟩
      rfl
    have hsc2 : scanTables respTitles (docC10resp n)
        = [⟨cs "r 对象", [cs "| s | string | 否 | i |"]⟩,
           ⟨cs "root", [cs "| r | object | 是 | o |"]⟩] := by
      rw [show docC10resp n
          = '#' :: '#' :: '#' :: '#' ::
            ((c10respMid1 ++ List.replicate n 'x') ++ c10respSuf) from rfl]
      refine Eq.trans (scanTables_cons_skip _ _ _ ?_ ?_) ?_
      · rfl
      · rfl
      refine Eq.trans (scanTables_cons_skip _ _ _ ?_ ?_) ?_
      · rfl
      · rfl
      refine Eq.trans (scanTables_cons_skip _ _ _ ?_ ?_) ?_
      · rfl
      · rfl
      refine Eq.trans (scanTables_cons_skip _ _ _ ?_ ?_) ?_
      · rfl
      · rfl
      rw [show (c10respMid1 ++ List.replicate n 'x') ++ c10respSuf
          = c10respMidA ++ ('*' ::
              ((cs "*r 对象**\n|h|\n|-|\n| s | string | 否 | i |\n\nx"
                ++ List.replicate n 'x') ++ c10respSuf)) from rfl]
      refine Eq.trans (scanTables_skip_block _ c10respMidA _ (by decide)) ?_
      refine Eq.trans (scanTables_sub respTitles '*'
          ((cs "*r 对象**\n|h|\n|-|\n| s | string | 否 | i |\n\nx"
            ++ List.replicate n 'x') ++ c10respSuf)
          (cs "r 对象") [cs "| s | string | 否 | i |"]
          ((cs "\nx" ++ List.replicate n 'x') ++ c10respSuf) ?_) ?_
      · rfl
      rw [hrest2]
    unfold parse_response_schema
    rw [show firstSectionOf respTitles (docC10resp n) = some g2 from by
      rw [show respTitles = cs "响应参数"
          :: [cs "请求响应", cs "响应字段", cs "返回参数"] from rfl]
      simp only [firstSectionOf]
      rw [hsec]]
    rw [hsc2]
    rfl

end Md2OpenapiClaims
